import Mathlib

/-!
# WS2801 SPI sink (`src/components/ws2801-spidev-sink.c`)

A shallow embedding of the driver and the properties checked against it.

Conventions of the embedding

* `int` values are integers (`Int`).  The sums of the blending loop, which grow
  with `num_bbuf`, are kept in 32 bits (`to_int` after every addition); the
  counters of strand entries are exact.  The casts that change a value are
  explicit: `int → unsigned char` is `% 256` (`to_uchar`) and `long → int`
  is `to_int`.  The C operators `/` and `%` are `Int.tdiv` and `Int.tmod`.
* A C array is a `List Int`; a pointer that may be `NULL` is an `Option`.
* A run of the code that leaves the defined behaviour of C, or whose result is
  not a number, returns `Run.undefined` with the reason (`Fault`): an array
  indexed outside its bounds, a `NULL` pointer dereferenced, a floating-point
  division by zero.
* `write(2)` is an input: every commit receives the outcome of its write
  (`WriteResult`).  The frames handed to `write` are recorded in the ghost
  field `wire`.
* A `double` field holds a rational (`ℚ`): the number the option denotes (for
  `led_inset`, its exact hundredth; the rounding is left to `EdgeEval`).  No
  `float` arithmetic is computed here: the expression that
  `map_output_to_point` evaluates in `float` is the parameter `EdgeEval`, and
  the only property proved of it is that its divisor is zero, which the
  conversion `int → float` preserves.
* Functions of `util.c` and `color.c`, which are not part of the sources at
  hand, are parameters (the result of `ambitv_parse_led_string` is carried by
  the option, the table built by `ambitv_color_gamma_lookup_table_create` is
  the parameter `lut_create`, the macro `CONSTRAIN` is part of the parameter
  `EdgeEval`) or are modelled from the specification
  (`ambitv_color_map_with_lut`).
-/

namespace Ws2801

/-! ## Undefined behaviour -/

/-- Reasons for which a run of the C code has no defined result: an array
indexed outside its bounds, a `NULL` pointer dereferenced, a floating-point
quotient with divisor zero. -/
inductive Fault where
  | out_of_bounds
  | null_deref
  | float_div_zero
  deriving DecidableEq, Repr

/-- Outcome of running a piece of C code: a value, or undefined behaviour. -/
inductive Run (α : Type) where
  | done : α → Run α
  | undefined : Fault → Run α
  deriving DecidableEq, Repr

/-- Sequencing of runs: undefined behaviour is sticky. -/
def Run.bind {α β : Type} (x : Run α) (f : α → Run β) : Run β :=
  match x with
  | .done a => f a
  | .undefined e => .undefined e

/-- Read `a[i]`. -/
def load (a : List Int) (i : Int) : Run Int :=
  if 0 ≤ i ∧ i < a.length then .done (a.getD i.toNat 0) else .undefined .out_of_bounds

/-- Write `a[i] = v`. -/
def store (a : List Int) (i : Int) (v : Int) : Run (List Int) :=
  if 0 ≤ i ∧ i < a.length then .done (a.set i.toNat v) else .undefined .out_of_bounds

/-- Conversion `int → unsigned char`. -/
def to_uchar (v : Int) : Int := v % 256

/-- Conversion to `int` (two's complement, 32 bits): of a `long`, and of a sum
of two `int`s. -/
def to_int (v : Int) : Int := (v + 2147483648) % 4294967296 - 2147483648

/-! ## Data model -/

/-- An array of four values, `x[4]`: top, bottom, left, right. -/
structure Arr4 (α : Type) where
  a0 : α
  a1 : α
  a2 : α
  a3 : α

/-- The elements `x[0] .. x[3]` in order. -/
def Arr4.toList {α : Type} (a : Arr4 α) : List α := [a.a0, a.a1, a.a2, a.a3]

/-- Read `x[i]` for `i` in `0..3`. -/
def Arr4.get {α : Type} (a : Arr4 α) (i : Fin 4) : α :=
  match i.val with
  | 0 => a.a0
  | 1 => a.a1
  | 2 => a.a2
  | _ => a.a3

/-- Assignment `x[i] = v` for `i` in `0..3`. -/
def Arr4.set {α : Type} (a : Arr4 α) (i : Fin 4) (v : α) : Arr4 α :=
  match i.val with
  | 0 => { a with a0 := v }
  | 1 => { a with a1 := v }
  | 2 => { a with a2 := v }
  | _ => { a with a3 := v }

/-- An array of three values, `x[3]`: red, green, blue. -/
structure Arr3 (α : Type) where
  a0 : α
  a1 : α
  a2 : α

/-- Assignment `x[i] = v` for `i` in `0..2`. -/
def Arr3.set {α : Type} (a : Arr3 α) (i : Fin 3) (v : α) : Arr3 α :=
  match i.val with
  | 0 => { a with a0 := v }
  | 1 => { a with a1 := v }
  | _ => { a with a2 := v }

/-- A gamma lookup table: 256 bytes. -/
abbrev Lut := Fin 256 → Fin 256

/-- The driver state, `struct ambitv_ws2801_priv` (without `device_name`),
with the ghost field `wire`: the frames handed to `write(2)`, oldest first. -/
structure ambitv_ws2801_priv where
  fd : Int
  spi_speed : Int
  num_leds : Int
  actual_num_leds : Int
  grblen : Int
  led_len : Arr4 Int
  led_str : Arr4 (Option (List Int))
  led_inset : Arr4 ℚ
  grb : Option (List Int)
  bbuf : Option (List (List Int))
  num_bbuf : Int
  bbuf_idx : Int
  gamma : Arr3 ℚ
  gamma_lut : Arr3 (Option Lut)
  wire : List (List Int)

/-! ## Resolving a logical output -/

/-- The loop `while (output >= led_len[idx]) { output -= led_len[idx]; idx++; }`
run over the lengths from `led_len[idx]` on.  It reads `led_len[idx]` before
every test; past `led_len[3]` that read is outside the array. -/
def ptr_walk : List Int → Int → Nat → Run (Nat × Int)
  | [], _, _ => .undefined .out_of_bounds
  | len :: rest, output, idx =>
    if output ≥ len then ptr_walk rest (output - len) (idx + 1) else .done (idx, output)

/-- A non-`NULL` result of `ambitv_ws2801_ptr_for_output`: the pointer
`&led_str[str_idx][led_idx]` and the value `val` it points to. -/
structure Slot where
  str_idx : Nat
  led_idx : Int
  val : Int
  deriving DecidableEq, Repr

/-- The read `led_str[idx][output]`. -/
def led_str_load (led_str : Arr4 (Option (List Int))) (idx : Nat) (output : Int) : Run Int :=
  match led_str.toList[idx]? with
  | none => .undefined .out_of_bounds
  | some none => .undefined .null_deref
  | some (some arr) => load arr output

/-- The function `ambitv_ws2801_ptr_for_output`: `none` is the `NULL` result. -/
def ambitv_ws2801_ptr_for_output (ws2801 : ambitv_ws2801_priv) (output : Int) :
    Run (Option Slot) :=
  if output < ws2801.num_leds then
    (ptr_walk ws2801.led_len.toList output 0).bind fun (idx, output) =>
      (led_str_load ws2801.led_str idx output).bind fun v =>
        if v ≥ 0 then .done (some { str_idx := idx, led_idx := output, val := v })
        else .done none
  else .done none

/-! ## Projection of an output onto the screen edge -/

/-- The `float` arithmetic of `ambitv_ws2801_map_output_to_point`, which is
not computed here: `fl led_inset dim llen led_idx bound` is the `int` the
target obtains for

    inset = led_inset * dim;  dim -= 2*inset;
    (int)CONSTRAIN(inset + (dim / llen) * led_idx, 0, bound)

with `dim`, `llen` and `led_idx` converted to `float`, for a non-zero `llen`.
The macro `CONSTRAIN` of `util.h`, which is not among the sources, is part of
it. -/
abbrev EdgeEval := ℚ → Int → Int → Int → Int → Int

/-- The expression `(int)CONSTRAIN(inset + (dim / llen) * led_idx, 0, bound)`
with `llen = len - 1`.  With `llen` zero the quotient `dim / llen` is an
infinity or a NaN, not a number: the run ends with `Fault.float_div_zero`. -/
def edge_offset (fl : EdgeEval) (led_inset : ℚ) (dim len led_idx bound : Int) : Run Int :=
  if len - 1 = 0 then .undefined .float_div_zero
  else .done (fl led_inset dim (len - 1) led_idx bound)

/-- Read `x[i]` of a four-element array for an `int` index. -/
def Arr4.load {α : Type} (a : Arr4 α) (i : Nat) : Run α :=
  match a.toList[i]? with
  | some v => .done v
  | none => .undefined .out_of_bounds

/-- The function `ambitv_ws2801_map_output_to_point`; `x` and `y` are the
values of `*x` and `*y` on entry, the result is `(ret, *x, *y)`. -/
def ambitv_ws2801_map_output_to_point (fl : EdgeEval) (ws2801 : ambitv_ws2801_priv)
    (output width height x y : Int) : Run (Int × Int × Int) :=
  (ambitv_ws2801_ptr_for_output ws2801 output).bind fun outp =>
    match outp with
    | some slot =>
      let str_idx := slot.str_idx
      let led_idx := slot.led_idx
      (ws2801.led_len.load str_idx).bind fun len =>
      (ws2801.led_inset.load str_idx).bind fun led_inset =>
        let dim : Int := if str_idx < 2 then width else height
        match str_idx with
        | 0 => (edge_offset fl led_inset dim len led_idx width).bind fun x => .done (0, x, 0)
        | 1 =>
          (edge_offset fl led_inset dim len led_idx width).bind fun x => .done (0, x, height)
        | 2 => (edge_offset fl led_inset dim len led_idx height).bind fun y => .done (0, 0, y)
        | 3 =>
          (edge_offset fl led_inset dim len led_idx height).bind fun y => .done (0, width, y)
        | _ => .done (-1, x, y)
    | none => .done (-1, -1, -1)

/-! ## Committing a frame -/

/-- Outcome of one `write(2)`: the value it returns and `errno` after it. -/
structure WriteResult where
  ret : Int
  errno : Int
  deriving DecidableEq, Repr

/-- The bytes `grb[0 .. grblen)` handed to `write`. -/
def frame (ws2801 : ambitv_ws2801_priv) : List Int :=
  (ws2801.grb.getD []).take ws2801.grblen.toNat

/-- The function `ambitv_ws2801_commit_outputs`, given the outcome `w` of its
`write`: the returned value and the state after it. -/
def ambitv_ws2801_commit_outputs (ws2801 : ambitv_ws2801_priv) (w : WriteResult) :
    Int × ambitv_ws2801_priv :=
  let ret : Int :=
    if ws2801.fd ≥ 0 then
      if w.ret ≠ ws2801.grblen then
        if w.ret ≤ 0 then -w.errno else -w.ret
      else 0
    else -1
  let wire := if ws2801.fd ≥ 0 then ws2801.wire ++ [frame ws2801] else ws2801.wire
  let bbuf_idx :=
    if ws2801.num_bbuf ≠ 0 then (ws2801.bbuf_idx + 1).tmod ws2801.num_bbuf
    else ws2801.bbuf_idx
  (ret, { ws2801 with bbuf_idx := bbuf_idx, wire := wire })

/-- The call `memset(a, 0, n)`. -/
def memset_zero (a : List Int) (n : Int) : Run (List Int) :=
  if 0 ≤ n ∧ n ≤ a.length then .done (List.replicate n.toNat 0 ++ a.drop n.toNat)
  else .undefined .out_of_bounds

/-- One iteration of the loop of `ambitv_ws2801_clear_leds`:
`memset(grb, 0, grblen)`, then a commit whose result is dropped. -/
def clear_round (ws2801 : ambitv_ws2801_priv) (w : WriteResult) : Run ambitv_ws2801_priv :=
  match ws2801.grb with
  | none => .undefined .null_deref
  | some grb =>
    (memset_zero grb ws2801.grblen).bind fun grb =>
      .done (ambitv_ws2801_commit_outputs { ws2801 with grb := some grb } w).2

/-- The function `ambitv_ws2801_clear_leds`; `w i` is the outcome of the write
of iteration `i`. -/
def ambitv_ws2801_clear_leds (ws2801 : ambitv_ws2801_priv) (w : Nat → WriteResult) :
    Run ambitv_ws2801_priv :=
  if ws2801.grb.isSome ∧ ws2801.fd ≥ 0 then
    (clear_round ws2801 (w 0)).bind fun ws =>
    (clear_round ws (w 1)).bind fun ws =>
    clear_round ws (w 2)
  else .done ws2801

/-! ## Setting an output -/

/-- Modelled from the spec: `ambitv_color_map_with_lut` of `color.c`, which is
not among the sources; the spec says a gamma table is a "256-entry byte array
mapping raw intensity → corrected intensity".  The intensity is passed as an
`unsigned char`. -/
def ambitv_color_map_with_lut (lut : Lut) (color : Int) : Int :=
  ((lut (Fin.ofNat (to_uchar color).toNat)).val : Int)

/-- The code `if (gamma_lut[i]) *rgb[i] = ambitv_color_map_with_lut(gamma_lut[i], *rgb[i]);`. -/
def gamma_apply (lut : Option Lut) (color : Int) : Int :=
  match lut with
  | some lut => ambitv_color_map_with_lut lut color
  | none => color

/-- The three stores `a[3*ii] = b; a[3*ii+1] = g; a[3*ii+2] = r;` into a byte array. -/
def store_bgr (a : List Int) (ii r g b : Int) : Run (List Int) :=
  (store a (3 * ii) (to_uchar b)).bind fun a =>
  (store a (3 * ii + 1) (to_uchar g)).bind fun a =>
  store a (3 * ii + 2) (to_uchar r)

/-- The loop `for (i=0; i<num_bbuf; i++) { b += bbuf[i][3*ii]; g += bbuf[i][3*ii+1];
r += bbuf[i][3*ii+2]; }` with `n` iterations left, at index `i`, on the sums
`(r, g, b)`, which are 32-bit `int`s. -/
def blend_sum (bbuf : List (List Int)) (ii : Int) :
    Nat → Nat → Int × Int × Int → Run (Int × Int × Int)
  | 0, _, acc => .done acc
  | n + 1, i, (r, g, b) =>
    match bbuf[i]? with
    | none => .undefined .out_of_bounds
    | some w =>
      (load w (3 * ii)).bind fun x =>
      (load w (3 * ii + 1)).bind fun y =>
      (load w (3 * ii + 2)).bind fun z =>
      blend_sum bbuf ii n (i + 1) (to_int (r + z), to_int (g + y), to_int (b + x))

/-- The blending block of `ambitv_ws2801_set_output_to_rgb` (`if (num_bbuf) ...`):
the state after it and the values of `(r, g, b)` after it. -/
def blend (ws2801 : ambitv_ws2801_priv) (ii r g b : Int) :
    Run (ambitv_ws2801_priv × Int × Int × Int) :=
  if ws2801.num_bbuf ≠ 0 then
    match ws2801.bbuf with
    | none => .undefined .null_deref
    | some bbuf =>
      if 0 ≤ ws2801.bbuf_idx then
        match bbuf[ws2801.bbuf_idx.toNat]? with
        | none => .undefined .out_of_bounds
        | some acc =>
          (store_bgr acc ii r g b).bind fun acc =>
            let bbuf := bbuf.set ws2801.bbuf_idx.toNat acc
            (blend_sum bbuf ii ws2801.num_bbuf.toNat 0 (0, 0, 0)).bind fun (r, g, b) =>
              .done ({ ws2801 with bbuf := some bbuf },
                r.tdiv ws2801.num_bbuf, g.tdiv ws2801.num_bbuf, b.tdiv ws2801.num_bbuf)
      else .undefined .out_of_bounds
  else .done (ws2801, r, g, b)

/-- The function `ambitv_ws2801_set_output_to_rgb`: the returned value and the
state after it. -/
def ambitv_ws2801_set_output_to_rgb (ws2801 : ambitv_ws2801_priv) (idx r g b : Int) :
    Run (Int × ambitv_ws2801_priv) :=
  (ambitv_ws2801_ptr_for_output ws2801 idx).bind fun outp =>
    match outp with
    | none => .done (-1, ws2801)
    | some slot =>
      let ii := slot.val
      (blend ws2801 ii r g b).bind fun (ws, r, g, b) =>
        let r := gamma_apply ws.gamma_lut.a0 r
        let g := gamma_apply ws.gamma_lut.a1 g
        let b := gamma_apply ws.gamma_lut.a2 b
        match ws.grb with
        | none => .undefined .null_deref
        | some grb =>
          (store_bgr grb ii r g b).bind fun grb =>
            .done (0, { ws with grb := some grb })

/-- The function `ambitv_ws2801_num_outputs`. -/
def ambitv_ws2801_num_outputs (ws2801 : ambitv_ws2801_priv) : Int := ws2801.num_leds

/-! ## Configuration -/

/-- One option as `getopt_long` delivers it, with the result of parsing its
argument: `none` when `strtol`/`strtod` stops before the end of the string or
`ambitv_parse_led_string` returns a negative value. -/
inductive Opt where
  | spi_device
  | spi_speed_hz (nbuf : Option Int)
  | leds (idx : Fin 4) (parsed : Option (List Int))
  | blended_frames (nbuf : Option Int)
  | gamma (ch : Fin 3) (nbuf : Option ℚ)
  | led_inset (idx : Fin 4) (nbuf : Option ℚ)
  | unknown

/-- The loop `for (i=0; i<led_len[idx]; i++) if (led_str[idx][i] >= 0) actual_num_leds++;`:
the number of increments. -/
def count_leds : List Int → Int
  | [] => 0
  | v :: rest => (if v ≥ 0 then 1 else 0) + count_leds rest

/-- One iteration of the option loop of `ambitv_ws2801_configure`; `none` is
`goto errReturn` with `ret < 0`. -/
def configure_opt (ws2801 : ambitv_ws2801_priv) : Opt → Option ambitv_ws2801_priv
  | .spi_device => some ws2801
  | .spi_speed_hz none => none
  | .spi_speed_hz (some nbuf) =>
    if nbuf > 0 then some { ws2801 with spi_speed := to_int nbuf } else none
  | .blended_frames none => none
  | .blended_frames (some nbuf) =>
    if nbuf ≥ 0 then some { ws2801 with num_bbuf := to_int nbuf } else none
  | .leds _ none => none
  | .leds idx (some arr) =>
    some { ws2801 with
      led_str := ws2801.led_str.set idx (some arr)
      led_len := ws2801.led_len.set idx arr.length
      num_leds := ws2801.num_leds + arr.length
      actual_num_leds := ws2801.actual_num_leds + count_leds arr }
  | .gamma _ none => none
  | .gamma ch (some nbuf) => some { ws2801 with gamma := ws2801.gamma.set ch nbuf }
  | .led_inset _ none => none
  | .led_inset idx (some nbuf) =>
    some { ws2801 with led_inset := ws2801.led_inset.set idx (nbuf / 100) }
  | .unknown => some ws2801

/-- The option loop of `ambitv_ws2801_configure`. -/
def configure_loop (ws2801 : ambitv_ws2801_priv) : List Opt → Option ambitv_ws2801_priv
  | [] => some ws2801
  | o :: rest =>
    match configure_opt ws2801 o with
    | none => none
    | some ws => configure_loop ws rest

/-- The function `ambitv_ws2801_configure`; `extraneous` is `optind < argc`
after the loop.  `none` is a negative return value. -/
def ambitv_ws2801_configure (ws2801 : ambitv_ws2801_priv) (argv : List Opt)
    (extraneous : Bool) : Option ambitv_ws2801_priv :=
  match configure_loop
      { ws2801 with led_str := ⟨none, none, none, none⟩, num_leds := 0, actual_num_leds := 0 }
      argv with
  | none => none
  | some ws => if extraneous then none else some ws

/-- The state `ambitv_ws2801_create` hands to `ambitv_ws2801_configure`: all
zero except `fd`, `spi_speed` and `gamma` (`DEFAULT_GAMMA` is 1.6). -/
def fresh_priv : ambitv_ws2801_priv where
  fd := -1
  spi_speed := 2500000
  num_leds := 0
  actual_num_leds := 0
  grblen := 0
  led_len := ⟨0, 0, 0, 0⟩
  led_str := ⟨none, none, none, none⟩
  led_inset := ⟨0, 0, 0, 0⟩
  grb := none
  bbuf := none
  num_bbuf := 0
  bbuf_idx := 0
  gamma := ⟨16 / 10, 16 / 10, 16 / 10⟩
  gamma_lut := ⟨none, none, none⟩
  wire := []

/-- The code `if (gamma[i] >= 0.0) gamma_lut[i] = ambitv_color_gamma_lookup_table_create(gamma[i]);`
on a `NULL` entry. -/
def gamma_lut_for (lut_create : ℚ → Lut) (gamma : ℚ) : Option Lut :=
  if gamma ≥ 0 then some (lut_create gamma) else none

/-- The function `ambitv_ws2801_create` (every `malloc` succeeds); `none` is
the `NULL` result.  `lut_create` is `ambitv_color_gamma_lookup_table_create`. -/
def ambitv_ws2801_create (lut_create : ℚ → Lut) (argv : List Opt) (extraneous : Bool) :
    Option ambitv_ws2801_priv :=
  match ambitv_ws2801_configure fresh_priv argv extraneous with
  | none => none
  | some priv =>
    let grblen := 3 * priv.actual_num_leds
    some { priv with
      grblen := grblen
      grb := some (List.replicate grblen.toNat 0)
      bbuf :=
        if priv.num_bbuf > 1 then
          some (List.replicate priv.num_bbuf.toNat (List.replicate grblen.toNat 0))
        else priv.bbuf
      num_bbuf := if priv.num_bbuf > 1 then priv.num_bbuf else 0
      gamma_lut :=
        ⟨gamma_lut_for lut_create priv.gamma.a0, gamma_lut_for lut_create priv.gamma.a1,
         gamma_lut_for lut_create priv.gamma.a2⟩ }

/-! ## Notions of the specification -/

/-- The entries of the strand behind a pointer of `led_str`; `NULL` has none. -/
def strand_array (p : Option (List Int)) : List Int := p.getD []

/-- The entries of the four stored strands in the order of the logical
outputs: top, bottom, left, right.  Logical output `n` is entry `n`. -/
def flat (ws2801 : ambitv_ws2801_priv) : List Int :=
  (ws2801.led_str.toList.map strand_array).flatten

/-- Every `led_len[i]` is the number of entries of `led_str[i]`. -/
def LenOk (ws2801 : ambitv_ws2801_priv) : Prop :=
  ws2801.led_len.toList = ws2801.led_str.toList.map fun p => ((strand_array p).length : Int)

/-- The strands named by the `leds-...` options of a command line, in order. -/
def strand_ids : List Opt → List (Fin 4)
  | [] => []
  | .leds idx _ :: rest => idx :: strand_ids rest
  | _ :: rest => strand_ids rest

/-- Gamma correction of one channel: the channel's table, or the identity when
the channel has none. -/
def corrected (lut : Option Lut) (c : Fin 256) : Fin 256 :=
  match lut with
  | some t => t c
  | none => c

/-- The three bytes of LED `p` in a byte array. -/
def block (a : List Int) (p : Int) : List Int :=
  [a.getD (3 * p).toNat 0, a.getD (3 * p + 1).toNat 0, a.getD (3 * p + 2).toNat 0]

/-- One frame that drives a single output: `set_output_to_rgb`, then a commit
whose write has outcome `w`. -/
def frame_round (idx r g b : Int) (ws2801 : ambitv_ws2801_priv) (w : WriteResult) :
    Run ambitv_ws2801_priv :=
  (ambitv_ws2801_set_output_to_rgb ws2801 idx r g b).bind fun x =>
    .done (ambitv_ws2801_commit_outputs x.2 w).2

/-- Consecutive frames with the same colour, one per write outcome. -/
def frame_rounds (idx r g b : Int) : List WriteResult → ambitv_ws2801_priv →
    Run ambitv_ws2801_priv
  | [], ws => .done ws
  | w :: rest, ws => (frame_round idx r g b ws w).bind (frame_rounds idx r g b rest)

/-- No two distinct logical outputs resolve to the same physical LED index. -/
def InjectiveOutputs (ws : ambitv_ws2801_priv) : Prop :=
  ∀ (o1 o2 : Int) (s1 s2 : Slot),
    ambitv_ws2801_ptr_for_output ws o1 = .done (some s1) →
    ambitv_ws2801_ptr_for_output ws o2 = .done (some s2) →
    s1.val = s2.val → o1 = o2

/-- The physical LED indices of the logical outputs in `[0, num_outputs)` are
exactly `0 .. actual_led_count - 1`. -/
def DenseOutputs (ws : ambitv_ws2801_priv) : Prop :=
  ∀ p : Int, (0 ≤ p ∧ p < ws.actual_num_leds) ↔
    ∃ (o : Int) (s : Slot), 0 ≤ o ∧ o < ambitv_ws2801_num_outputs ws ∧
      ambitv_ws2801_ptr_for_output ws o = .done (some s) ∧ s.val = p

/-- The driver built from a command line, with the identity as gamma table of
every exponent; the fresh state when construction fails. -/
def driver_of (argv : List Opt) : ambitv_ws2801_priv :=
  (ambitv_ws2801_create (fun _ => id) argv false).getD fresh_priv

/-! ## Invariants used in the proofs -/

/-- What the options leave true when no strand is named twice. -/
def ConfigInv (ws : ambitv_ws2801_priv) : Prop :=
  LenOk ws ∧ ws.num_leds = (flat ws).length ∧ ws.actual_num_leds = count_leds (flat ws)

/-- What the options leave true on every command line. -/
def ConfigInvWeak (ws : ambitv_ws2801_priv) : Prop :=
  LenOk ws ∧ ((flat ws).length : Int) ≤ ws.num_leds ∧ 0 ≤ ws.actual_num_leds

/-- Blending is enabled and allocated for LED `p`: at least two windows, as
many as `num_bbuf` says, each holding the block of `p`; the cursor on one of
them; a transmission buffer holding the block of `p`. -/
def WindowReady (ws : ambitv_ws2801_priv) (p : Int) : Prop :=
  2 ≤ ws.num_bbuf ∧ 0 ≤ ws.bbuf_idx ∧ ws.bbuf_idx < ws.num_bbuf ∧
  (∃ B, ws.bbuf = some B ∧ (B.length : Int) = ws.num_bbuf ∧
    ∀ w ∈ B, 3 * p + 2 < (w.length : Int)) ∧
  (∃ G, ws.grb = some G ∧ 3 * p + 2 < (G.length : Int))

/-- The windows at the slots that satisfy `P` hold the bytes `x`, `y`, `z` in
the block of LED `p`. -/
def Filled (B : List (List Int)) (p x y z : Int) (P : Nat → Prop) : Prop :=
  ∀ j, P j → ∀ w, B[j]? = some w → block w p = [x, y, z]

/-! ## Concrete drivers -/

/-- A driver with two blending windows that hold earlier frames, the cursor on
the second window: the top strand `0,1`, no gamma tables. -/
def blending_driver : ambitv_ws2801_priv :=
  { driver_of [.leds 0 (some [0, 1]), .blended_frames (some 2), .gamma 0 (some (-1)),
      .gamma 1 (some (-1)), .gamma 2 (some (-1))] with
    bbuf := some [[9, 9, 9, 7, 7, 7], [1, 2, 3, 4, 5, 6]]
    bbuf_idx := 1 }

/-- A driver with 8421505 blending windows for the top strand `0`: the least
number of windows for which 255 times their number is not an `int`. -/
def wide_driver : ambitv_ws2801_priv :=
  driver_of [.leds 0 (some [0]), .blended_frames (some 8421505)]

/-! ## Runs, loads and the walk over the strands -/

@[simp] theorem Run.bind_done {α β : Type} (a : α) (f : α → Run β) :
    (Run.done a).bind f = f a := rfl

@[simp] theorem Run.bind_undefined {α β : Type} (e : Fault) (f : α → Run β) :
    (Run.undefined e : Run α).bind f = .undefined e := rfl

theorem Run.bind_eq_done {α β : Type} {x : Run α} {f : α → Run β} {b : β}
    (h : x.bind f = .done b) : ∃ a, x = .done a ∧ f a = .done b := by
  cases x with
  | done a => exact ⟨a, rfl, h⟩
  | undefined e => simp at h

theorem load_done {a : List Int} {i : Int} (h0 : 0 ≤ i) (h1 : i < a.length) :
    load a i = .done (a.getD i.toNat 0) := by
  simp [load, h0, h1]

/-- The walk over the strand lengths stops in the strand that holds entry
`o` of the concatenated strands, at that entry. -/
theorem ptr_walk_flat (arrs : List (List Int)) :
    ∀ (o : Int) (k : Nat), 0 ≤ o → o < (arrs.flatten).length →
      ∃ j a o', ptr_walk (arrs.map fun a => (a.length : Int)) o k = .done (k + j, o') ∧
        arrs[j]? = some a ∧ 0 ≤ o' ∧ o' < a.length ∧
        a.getD o'.toNat 0 = arrs.flatten.getD o.toNat 0 := by
  induction arrs with
  | nil => intro o k h0 h1; simp at h1; omega
  | cons a rest ih =>
    intro o k h0 h1
    simp only [List.map_cons, ptr_walk, List.flatten_cons]
    by_cases hc : o ≥ (a.length : Int)
    · rw [if_pos hc]
      have h1' : o - a.length < (rest.flatten).length := by
        rw [List.flatten_cons, List.length_append] at h1; push_cast at h1; omega
      obtain ⟨j, a', o', hw, hg, ho0, ho1, hv⟩ := ih (o - a.length) (k + 1) (by omega) h1'
      refine ⟨j + 1, a', o', ?_, ?_, ho0, ho1, ?_⟩
      · rw [hw]; congr 2; omega
      · simpa using hg
      · rw [hv, List.getD_append_right _ _ _ _ (by omega)]
        congr 1; omega
    · rw [if_neg hc]
      refine ⟨0, a, o, rfl, by simp, h0, by omega, ?_⟩
      rw [List.getD_append _ _ _ _ (by omega)]

/-- Past the last entry of the strands the walk runs off the array of lengths. -/
theorem ptr_walk_beyond (arrs : List (List Int)) :
    ∀ (o : Int) (k : Nat), ((arrs.flatten).length : Int) ≤ o →
      ptr_walk (arrs.map fun a => (a.length : Int)) o k = .undefined .out_of_bounds := by
  induction arrs with
  | nil => intro o k _; rfl
  | cons a rest ih =>
    intro o k h
    rw [List.flatten_cons, List.length_append] at h
    push_cast at h
    simp only [List.map_cons, ptr_walk]
    rw [if_pos (by omega)]
    exact ih _ _ (by omega)

theorem led_len_of_LenOk {ws : ambitv_ws2801_priv} (hl : LenOk ws) :
    ws.led_len.toList =
      (ws.led_str.toList.map strand_array).map fun a => (a.length : Int) := by
  rw [hl, List.map_map]; rfl

/-- On an output inside the stored strands the resolution reads the entry of
the concatenated strands at that output. -/
theorem ptr_for_output_flat {ws : ambitv_ws2801_priv} (hl : LenOk ws) {o : Int}
    (h0 : 0 ≤ o) (h1 : o < (flat ws).length) (h2 : o < ws.num_leds) :
    ∃ idx led_idx, idx < 4 ∧ ambitv_ws2801_ptr_for_output ws o =
      .done (if (flat ws).getD o.toNat 0 ≥ 0 then
        some { str_idx := idx, led_idx := led_idx, val := (flat ws).getD o.toNat 0 }
        else none) := by
  obtain ⟨j, a, o', hw, hg, ho0, ho1, hv⟩ :=
    ptr_walk_flat (ws.led_str.toList.map strand_array) o 0 h0 h1
  have hj : j < 4 := by
    obtain ⟨hlt, -⟩ := List.getElem?_eq_some.1 hg
    simpa [Arr4.toList] using hlt
  refine ⟨j, o', hj, ?_⟩
  unfold ambitv_ws2801_ptr_for_output
  rw [if_pos h2, led_len_of_LenOk hl, hw]
  simp only [Run.bind_done, Nat.zero_add]
  have hload : led_str_load ws.led_str j o' = .done (a.getD o'.toNat 0) := by
    unfold led_str_load
    rw [List.getElem?_map] at hg
    cases hp : ws.led_str.toList[j]? with
    | none => simp [hp] at hg
    | some p =>
      simp only [hp, Option.map_some', Option.some.injEq] at hg
      cases p with
      | none => simp only [strand_array, Option.getD_none] at hg; subst hg; simp at ho1; omega
      | some arr =>
        simp only [strand_array, Option.getD_some] at hg; subst hg
        exact load_done ho0 ho1
  rw [hload, Run.bind_done, hv]
  simp only [flat]
  split <;> rfl

/-- A resolved output lies inside the stored strands and carries the entry of
the concatenated strands at that output. -/
theorem ptr_for_output_resolved {ws : ambitv_ws2801_priv} (hl : LenOk ws) {o : Int} {s : Slot}
    (h : ambitv_ws2801_ptr_for_output ws o = .done (some s)) :
    0 ≤ o ∧ o < ws.num_leds ∧ o < (flat ws).length ∧
      s.val = (flat ws).getD o.toNat 0 ∧ 0 ≤ s.val := by
  have h2 : o < ws.num_leds := by
    by_contra hc
    simp [ambitv_ws2801_ptr_for_output, hc] at h
  have hlen := led_len_of_LenOk hl
  have h0 : 0 ≤ o := by
    by_contra hc
    unfold ambitv_ws2801_ptr_for_output at h
    rw [if_pos h2, hlen] at h
    simp only [Arr4.toList, List.map_cons, ptr_walk] at h
    rw [if_neg (by omega)] at h
    simp only [Run.bind_done, led_str_load, Arr4.toList, List.getElem?_cons_zero] at h
    cases hp : ws.led_str.a0 with
    | none => simp [hp] at h
    | some arr =>
      simp only [hp] at h
      have : load arr o = .undefined .out_of_bounds := by simp [load]; omega
      simp [this] at h
  have h1 : o < (flat ws).length := by
    by_contra hc
    unfold ambitv_ws2801_ptr_for_output at h
    rw [if_pos h2, hlen, ptr_walk_beyond _ _ _ (by simpa [flat] using hc)] at h
    simp at h
  obtain ⟨idx, led_idx, -, hr⟩ := ptr_for_output_flat hl h0 h1 h2
  rw [hr] at h
  split at h
  · rename_i hv
    simp only [Run.done.injEq, Option.some.injEq] at h
    subst h
    exact ⟨h0, h2, h1, rfl, hv⟩
  · simp at h

/-- At or above `num_leds` the resolution returns `NULL` without a read. -/
theorem ptr_for_output_above (ws : ambitv_ws2801_priv) {o : Int} (h : ws.num_leds ≤ o) :
    ambitv_ws2801_ptr_for_output ws o = .done none := by
  simp [ambitv_ws2801_ptr_for_output, not_lt.2 h]

/-- Below zero the resolution reads `led_str[0][output]`, before the top strand
(or through a `NULL` pointer): it never returns. -/
theorem ptr_for_output_negative {ws : ambitv_ws2801_priv} (hl : LenOk ws)
    (hn : 0 ≤ ws.num_leds) {o : Int} (h : o < 0) :
    ∃ e, ambitv_ws2801_ptr_for_output ws o = .undefined e := by
  unfold ambitv_ws2801_ptr_for_output
  rw [if_pos (by omega), led_len_of_LenOk hl]
  simp only [Arr4.toList, List.map_cons, ptr_walk]
  rw [if_neg (by omega)]
  simp only [Run.bind_done, led_str_load, Arr4.toList, List.getElem?_cons_zero]
  cases hp : ws.led_str.a0 with
  | none => exact ⟨_, rfl⟩
  | some arr =>
    have : load arr o = .undefined .out_of_bounds := by simp [load]; omega
    simp only [this, Run.bind_undefined]
    exact ⟨_, rfl⟩

theorem count_leds_append (a b : List Int) :
    count_leds (a ++ b) = count_leds a + count_leds b := by
  induction a with
  | nil => simp [count_leds]
  | cons v rest ih =>
    rw [List.cons_append]
    simp only [count_leds]
    rw [ih]; ring

theorem count_leds_eq_filter (a : List Int) :
    count_leds a = ((a.filter fun v => decide (v ≥ 0)).length : Int) := by
  induction a with
  | nil => simp [count_leds]
  | cons v rest ih =>
    by_cases hv : v ≥ 0
    · simp [count_leds, hv, ih]; ring
    · simp [count_leds, hv, ih]

theorem count_leds_nonneg (a : List Int) : 0 ≤ count_leds a := by
  rw [count_leds_eq_filter]; omega

theorem flat_eq (ws : ambitv_ws2801_priv) :
    flat ws = strand_array ws.led_str.a0 ++ (strand_array ws.led_str.a1 ++
      (strand_array ws.led_str.a2 ++ strand_array ws.led_str.a3)) := by
  simp [flat, Arr4.toList]

theorem Arr4.get_set_ne {α : Type} (a : Arr4 α) (i j : Fin 4) (v : α) (h : i ≠ j) :
    (a.set j v).get i = a.get i := by
  fin_cases i <;> fin_cases j <;> simp [Arr4.get, Arr4.set] at h ⊢

theorem configure_opt_leds_inv {ws : ambitv_ws2801_priv} (h : ConfigInv ws) (idx : Fin 4)
    (arr : List Int) (hnull : ws.led_str.get idx = none) :
    ConfigInv { ws with
      led_str := ws.led_str.set idx (some arr)
      led_len := ws.led_len.set idx arr.length
      num_leds := ws.num_leds + arr.length
      actual_num_leds := ws.actual_num_leds + count_leds arr } := by
  obtain ⟨hl, hn, ha⟩ := h
  simp only [LenOk, Arr4.toList, List.map_cons, List.map_nil, List.cons.injEq, and_true] at hl
  obtain ⟨h0, h1, h2, h3⟩ := hl
  rw [flat_eq] at hn ha
  refine ⟨?_, ?_, ?_⟩
  · fin_cases idx <;>
      simp [LenOk, Arr4.toList, Arr4.set, strand_array, h0, h1, h2, h3]
  · rw [flat_eq, hn]
    fin_cases idx <;>
      simp [Arr4.get] at hnull <;>
      simp [Arr4.set, strand_array, hnull] <;> ring
  · rw [flat_eq, ha]
    fin_cases idx <;>
      simp [Arr4.get] at hnull <;>
      simp [Arr4.set, strand_array, hnull, count_leds_append, count_leds] <;> ring

theorem configure_opt_leds_inv_weak {ws : ambitv_ws2801_priv} (h : ConfigInvWeak ws)
    (idx : Fin 4) (arr : List Int) :
    ConfigInvWeak { ws with
      led_str := ws.led_str.set idx (some arr)
      led_len := ws.led_len.set idx arr.length
      num_leds := ws.num_leds + arr.length
      actual_num_leds := ws.actual_num_leds + count_leds arr } := by
  obtain ⟨hl, hn, ha⟩ := h
  simp only [LenOk, Arr4.toList, List.map_cons, List.map_nil, List.cons.injEq, and_true] at hl
  obtain ⟨h0, h1, h2, h3⟩ := hl
  rw [flat_eq] at hn
  refine ⟨?_, ?_, ?_⟩
  · fin_cases idx <;>
      simp [LenOk, Arr4.toList, Arr4.set, strand_array, h0, h1, h2, h3]
  · rw [flat_eq]
    simp only [List.length_append, Nat.cast_add, strand_array] at hn ⊢
    fin_cases idx <;> simp [Arr4.set] <;> omega
  · have := count_leds_nonneg arr
    show 0 ≤ ws.actual_num_leds + count_leds arr
    omega

theorem configure_loop_inv : ∀ (argv : List Opt) (ws ws' : ambitv_ws2801_priv),
    ConfigInv ws → (∀ i ∈ strand_ids argv, ws.led_str.get i = none) →
    (strand_ids argv).Nodup → configure_loop ws argv = some ws' → ConfigInv ws' := by
  intro argv
  induction argv with
  | nil =>
    intro ws ws' h _ _ hc
    simp only [configure_loop, Option.some.injEq] at hc
    subst hc; exact h
  | cons o rest ih =>
    intro ws ws' h hnull hnd hc
    simp only [configure_loop] at hc
    cases hstep : configure_opt ws o with
    | none => simp [hstep] at hc
    | some ws1 =>
      simp only [hstep] at hc
      cases o with
      | leds idx parsed =>
        cases parsed with
        | none => simp [configure_opt] at hstep
        | some arr =>
          simp only [configure_opt, Option.some.injEq] at hstep
          simp only [strand_ids, List.nodup_cons, List.mem_cons, forall_eq_or_imp] at hnd hnull
          subst hstep
          refine ih _ ws' (configure_opt_leds_inv h idx arr hnull.1) ?_ hnd.2 hc
          intro i hi
          have hne : i ≠ idx := fun e => hnd.1 (e ▸ hi)
          show (ws.led_str.set idx (some arr)).get i = none
          rw [Arr4.get_set_ne _ _ _ _ hne]
          exact hnull.2 i hi
      | spi_device =>
        simp only [configure_opt, Option.some.injEq] at hstep
        subst hstep
        exact ih _ ws' (by exact h) (by exact hnull) hnd hc
      | unknown =>
        simp only [configure_opt, Option.some.injEq] at hstep
        subst hstep
        exact ih _ ws' (by exact h) (by exact hnull) hnd hc
      | spi_speed_hz nbuf =>
        cases nbuf with
        | none => simp [configure_opt] at hstep
        | some n =>
          simp only [configure_opt] at hstep
          split at hstep
          · simp only [Option.some.injEq] at hstep
            subst hstep
            exact ih _ ws' (by exact h) (by exact hnull) hnd hc
          · simp at hstep
      | blended_frames nbuf =>
        cases nbuf with
        | none => simp [configure_opt] at hstep
        | some n =>
          simp only [configure_opt] at hstep
          split at hstep
          · simp only [Option.some.injEq] at hstep
            subst hstep
            exact ih _ ws' (by exact h) (by exact hnull) hnd hc
          · simp at hstep
      | gamma ch nbuf =>
        cases nbuf with
        | none => simp [configure_opt] at hstep
        | some n =>
          simp only [configure_opt, Option.some.injEq] at hstep
          subst hstep
          exact ih _ ws' (by exact h) (by exact hnull) hnd hc
      | led_inset idx nbuf =>
        cases nbuf with
        | none => simp [configure_opt] at hstep
        | some n =>
          simp only [configure_opt, Option.some.injEq] at hstep
          subst hstep
          exact ih _ ws' (by exact h) (by exact hnull) hnd hc

theorem configure_loop_inv_weak : ∀ (argv : List Opt) (ws ws' : ambitv_ws2801_priv),
    ConfigInvWeak ws → configure_loop ws argv = some ws' → ConfigInvWeak ws' := by
  intro argv
  induction argv with
  | nil =>
    intro ws ws' h hc
    simp only [configure_loop, Option.some.injEq] at hc
    subst hc; exact h
  | cons o rest ih =>
    intro ws ws' h hc
    simp only [configure_loop] at hc
    cases hstep : configure_opt ws o with
    | none => simp [hstep] at hc
    | some ws1 =>
      simp only [hstep] at hc
      cases o with
      | leds idx parsed =>
        cases parsed with
        | none => simp [configure_opt] at hstep
        | some arr =>
          simp only [configure_opt, Option.some.injEq] at hstep
          subst hstep
          exact ih _ ws' (configure_opt_leds_inv_weak h idx arr) hc
      | spi_device =>
        simp only [configure_opt, Option.some.injEq] at hstep
        subst hstep
        exact ih _ ws' (by exact h) hc
      | unknown =>
        simp only [configure_opt, Option.some.injEq] at hstep
        subst hstep
        exact ih _ ws' (by exact h) hc
      | spi_speed_hz nbuf =>
        cases nbuf with
        | none => simp [configure_opt] at hstep
        | some n =>
          simp only [configure_opt] at hstep
          split at hstep
          · simp only [Option.some.injEq] at hstep
            subst hstep
            exact ih _ ws' (by exact h) hc
          · simp at hstep
      | blended_frames nbuf =>
        cases nbuf with
        | none => simp [configure_opt] at hstep
        | some n =>
          simp only [configure_opt] at hstep
          split at hstep
          · simp only [Option.some.injEq] at hstep
            subst hstep
            exact ih _ ws' (by exact h) hc
          · simp at hstep
      | gamma ch nbuf =>
        cases nbuf with
        | none => simp [configure_opt] at hstep
        | some n =>
          simp only [configure_opt, Option.some.injEq] at hstep
          subst hstep
          exact ih _ ws' (by exact h) hc
      | led_inset idx nbuf =>
        cases nbuf with
        | none => simp [configure_opt] at hstep
        | some n =>
          simp only [configure_opt, Option.some.injEq] at hstep
          subst hstep
          exact ih _ ws' (by exact h) hc

/-- The driver `ambitv_ws2801_create` returns is the configured state with the
buffers allocated. -/
theorem create_eq {lut_create : ℚ → Lut} {argv : List Opt} {extraneous : Bool}
    {ws : ambitv_ws2801_priv}
    (h : ambitv_ws2801_create lut_create argv extraneous = some ws) :
    ∃ priv, configure_loop
        { fresh_priv with led_str := ⟨none, none, none, none⟩, num_leds := 0,
                          actual_num_leds := 0 } argv = some priv ∧
      ws.led_str = priv.led_str ∧ ws.led_len = priv.led_len ∧
      ws.num_leds = priv.num_leds ∧ ws.actual_num_leds = priv.actual_num_leds ∧
      ws.grblen = 3 * ws.actual_num_leds ∧
      ws.grb = some (List.replicate (3 * ws.actual_num_leds).toNat 0) := by
  unfold ambitv_ws2801_create ambitv_ws2801_configure at h
  cases hc : configure_loop
      { fresh_priv with led_str := ⟨none, none, none, none⟩, num_leds := 0,
                        actual_num_leds := 0 } argv with
  | none => simp [hc] at h
  | some priv =>
    simp only [hc] at h
    cases extraneous with
    | true => simp at h
    | false =>
      simp only [Bool.false_eq_true, if_false, Option.some.injEq] at h
      subst h
      exact ⟨priv, rfl, rfl, rfl, rfl, rfl, rfl, rfl⟩

theorem fresh_inv : ConfigInv
    { fresh_priv with led_str := ⟨none, none, none, none⟩, num_leds := 0,
                      actual_num_leds := 0 } := by
  refine ⟨?_, ?_, ?_⟩ <;> simp [LenOk, flat, Arr4.toList, strand_array, fresh_priv, count_leds]

theorem ConfigInv.weak {ws : ambitv_ws2801_priv} (h : ConfigInv ws) : ConfigInvWeak ws :=
  ⟨h.1, le_of_eq h.2.1.symm, by rw [h.2.2]; exact count_leds_nonneg _⟩

theorem configInv_congr {ws ws' : ambitv_ws2801_priv} (h : ConfigInv ws')
    (h1 : ws.led_str = ws'.led_str) (h2 : ws.led_len = ws'.led_len)
    (h3 : ws.num_leds = ws'.num_leds) (h4 : ws.actual_num_leds = ws'.actual_num_leds) :
    ConfigInv ws := by
  unfold ConfigInv LenOk flat at *
  rw [h1, h2, h3, h4]; exact h

theorem configInvWeak_congr {ws ws' : ambitv_ws2801_priv} (h : ConfigInvWeak ws')
    (h1 : ws.led_str = ws'.led_str) (h2 : ws.led_len = ws'.led_len)
    (h3 : ws.num_leds = ws'.num_leds) (h4 : ws.actual_num_leds = ws'.actual_num_leds) :
    ConfigInvWeak ws := by
  unfold ConfigInvWeak LenOk flat at *
  rw [h1, h2, h3, h4]; exact h

theorem create_inv_weak {lut_create : ℚ → Lut} {argv : List Opt} {extraneous : Bool}
    {ws : ambitv_ws2801_priv}
    (h : ambitv_ws2801_create lut_create argv extraneous = some ws) : ConfigInvWeak ws := by
  obtain ⟨priv, hc, h1, h2, h3, h4, -, -⟩ := create_eq h
  exact configInvWeak_congr (configure_loop_inv_weak argv _ priv fresh_inv.weak hc) h1 h2 h3 h4

theorem create_inv {lut_create : ℚ → Lut} {argv : List Opt} {extraneous : Bool}
    {ws : ambitv_ws2801_priv}
    (h : ambitv_ws2801_create lut_create argv extraneous = some ws)
    (hnd : (strand_ids argv).Nodup) : ConfigInv ws := by
  obtain ⟨priv, hc, h1, h2, h3, h4, -, -⟩ := create_eq h
  exact configInv_congr (configure_loop_inv argv _ priv fresh_inv (fun i _ => by
    fin_cases i <;> rfl) hnd hc) h1 h2 h3 h4

/-- The transmission buffer of a constructed driver has three bytes per counted
LED, on every command line. -/
theorem create_buffer_length {lut_create : ℚ → Lut} {argv : List Opt} {extraneous : Bool}
    {ws : ambitv_ws2801_priv}
    (h : ambitv_ws2801_create lut_create argv extraneous = some ws) :
    ws.grblen = 3 * ws.actual_num_leds ∧
    ∃ G, ws.grb = some G ∧ (G.length : Int) = 3 * ws.actual_num_leds := by
  obtain ⟨-, -, ha⟩ := create_inv_weak h
  obtain ⟨priv, -, -, -, -, -, hlen, hgrb⟩ := create_eq h
  refine ⟨hlen, _, hgrb, ?_⟩
  rw [List.length_replicate]
  omega

/-- When no strand option is given twice, the counters of a constructed driver
are those of the stored strands: `num_leds` is their total length and
`actual_num_leds` the number of their non-negative entries. -/
theorem create_counts {lut_create : ℚ → Lut} {argv : List Opt} {extraneous : Bool}
    {ws : ambitv_ws2801_priv}
    (h : ambitv_ws2801_create lut_create argv extraneous = some ws)
    (hnd : (strand_ids argv).Nodup) :
    ambitv_ws2801_num_outputs ws = (flat ws).length ∧
    ws.actual_num_leds = count_leds (flat ws) := by
  obtain ⟨-, hn, ha⟩ := create_inv h hnd
  exact ⟨hn, ha⟩

/-- In a constructed driver whose strand entries are all below
`actual_num_leds`, the block of every resolved output lies in the transmission
buffer. -/
theorem resolved_block_in_buffer {lut_create : ℚ → Lut} {argv : List Opt}
    {extraneous : Bool} {ws : ambitv_ws2801_priv}
    (h : ambitv_ws2801_create lut_create argv extraneous = some ws)
    (hlt : ∀ v ∈ flat ws, v < ws.actual_num_leds) {o : Int} {s : Slot}
    (hres : ambitv_ws2801_ptr_for_output ws o = .done (some s)) :
    ∃ G, ws.grb = some G ∧ 3 * s.val + 2 < (G.length : Int) := by
  obtain ⟨hl, -, -⟩ := create_inv_weak h
  obtain ⟨-, G, hG, hlen⟩ := create_buffer_length h
  obtain ⟨h0, -, h1, hv, -⟩ := ptr_for_output_resolved hl hres
  refine ⟨G, hG, ?_⟩
  have hmem : s.val ∈ flat ws := by
    rw [hv, List.getD_eq_getElem _ _ (by omega)]
    exact List.getElem_mem _
  have := hlt _ hmem
  omega

/-! ## Lists of distinct indices -/

theorem nodup_filter_index (P : Int → Bool) : ∀ (l : List Int) (i j : Nat),
    (l.filter P).Nodup → i < l.length → j < l.length → P (l.getD i 0) = true →
    l.getD i 0 = l.getD j 0 → i = j := by
  intro l
  induction l with
  | nil => intro i j _ hi; simp at hi
  | cons x xs ih =>
    intro i j hnd hi hj hP heq
    have hmem : ∀ k, k < xs.length → P (xs.getD k 0) = true → xs.getD k 0 ∈ xs.filter P := by
      intro k hk hPk
      rw [List.mem_filter]
      refine ⟨?_, hPk⟩
      rw [List.getD_eq_getElem _ _ hk]
      exact List.getElem_mem _
    cases i with
    | zero =>
      cases j with
      | zero => rfl
      | succ j =>
        exfalso
        simp only [List.getD_cons_zero, List.getD_cons_succ] at hP heq
        simp only [List.length_cons, Nat.add_lt_add_iff_right] at hj
        rw [List.filter_cons_of_pos hP, List.nodup_cons] at hnd
        apply hnd.1
        rw [heq]
        exact hmem j hj (heq ▸ hP)
    | succ i =>
      simp only [List.length_cons, Nat.add_lt_add_iff_right] at hi
      cases j with
      | zero =>
        exfalso
        simp only [List.getD_cons_zero, List.getD_cons_succ] at hP heq
        have hPx : P x = true := heq ▸ hP
        rw [List.filter_cons_of_pos hPx, List.nodup_cons] at hnd
        apply hnd.1
        rw [← heq]
        exact hmem i hi hP
      | succ j =>
        simp only [List.getD_cons_succ] at hP heq
        simp only [List.length_cons, Nat.add_lt_add_iff_right] at hj
        have hnd' : (xs.filter P).Nodup := by
          by_cases hPx : P x = true
          · rw [List.filter_cons_of_pos hPx, List.nodup_cons] at hnd; exact hnd.2
          · rw [List.filter_cons_of_neg hPx] at hnd; exact hnd
        rw [ih i j hnd' hi hj hP heq]

/-- Pigeonhole: a list of `n` distinct integers of `[0, n)` holds every one of them. -/
theorem mem_of_nodup_of_bounded (L : List Int) (hnd : L.Nodup)
    (hr : ∀ v ∈ L, 0 ≤ v ∧ v < L.length) (p : Int) (hp0 : 0 ≤ p) (hp1 : p < L.length) :
    p ∈ L := by
  have hinj : ∀ a ∈ L, ∀ b ∈ L, Int.toNat a = Int.toNat b → a = b := by
    intro a ha b hb hab
    have := (hr a ha).1
    have := (hr b hb).1
    omega
  have hnd' : (L.map Int.toNat).Nodup := List.Nodup.map_on hinj hnd
  have hsub : (L.map Int.toNat).toFinset ⊆ Finset.range L.length := by
    intro n hn
    simp only [List.mem_toFinset, List.mem_map] at hn
    obtain ⟨v, hv, rfl⟩ := hn
    have := hr v hv
    simp only [Finset.mem_range]
    omega
  have hcard : (Finset.range L.length).card ≤ (L.map Int.toNat).toFinset.card := by
    rw [List.toFinset_card_of_nodup hnd']; simp
  have heq := Finset.eq_of_subset_of_card_le hsub hcard
  have hmem : p.toNat ∈ (L.map Int.toNat).toFinset := by
    rw [heq, Finset.mem_range]; omega
  simp only [List.mem_toFinset, List.mem_map] at hmem
  obtain ⟨v, hv, hvp⟩ := hmem
  have := (hr v hv).1
  have : v = p := by omega
  exact this ▸ hv

/-! ## Strand map: C1, C3, C4, C8 -/

/-- C1 (amended): when no strand option is given twice, the non-negative
entries of the stored strands are pairwise distinct and every entry is below
`actual_num_leds`, then no two logical outputs resolve to the same physical
index and the physical indices of the outputs in `[0, num_outputs)` are exactly
`0 .. actual_num_leds - 1`. -/
theorem physical_indices_bijective (lut_create : ℚ → Lut) (argv : List Opt)
    (extraneous : Bool) (ws : ambitv_ws2801_priv)
    (h : ambitv_ws2801_create lut_create argv extraneous = some ws)
    (honce : (strand_ids argv).Nodup)
    (hdist : ((flat ws).filter fun v => decide (v ≥ 0)).Nodup)
    (hlt : ∀ v ∈ flat ws, v < ws.actual_num_leds) :
    InjectiveOutputs ws ∧ DenseOutputs ws := by
  obtain ⟨hl, hn, ha⟩ := create_inv h honce
  have hres : ∀ (o : Int) (s : Slot), ambitv_ws2801_ptr_for_output ws o = .done (some s) →
      0 ≤ o ∧ o < ws.num_leds ∧ o < (flat ws).length ∧
        s.val = (flat ws).getD o.toNat 0 ∧ 0 ≤ s.val :=
    fun o s => ptr_for_output_resolved hl
  constructor
  · intro o1 o2 s1 s2 h1 h2 heq
    obtain ⟨a0, -, a1, av, ap⟩ := hres o1 s1 h1
    obtain ⟨b0, -, b1, bv, -⟩ := hres o2 s2 h2
    have := nodup_filter_index (fun v => decide (v ≥ 0)) (flat ws) o1.toNat o2.toNat hdist
      (by omega) (by omega) (by rw [← av]; simpa using ap) (by rw [← av, ← bv]; exact heq)
    omega
  · intro p
    have hlen : (((flat ws).filter fun v => decide (v ≥ 0)).length : Int) = ws.actual_num_leds := by
      rw [ha, count_leds_eq_filter]
    constructor
    · rintro ⟨hp0, hp1⟩
      have hmem : p ∈ (flat ws).filter fun v => decide (v ≥ 0) := by
        apply mem_of_nodup_of_bounded _ hdist _ p hp0 (by rw [hlen]; exact hp1)
        intro v hv
        rw [List.mem_filter] at hv
        exact ⟨by simpa using hv.2, by rw [hlen]; exact hlt v hv.1⟩
      rw [List.mem_filter] at hmem
      obtain ⟨n, hn', hv⟩ := List.getElem_of_mem hmem.1
      have hget : (flat ws).getD ((n : Int).toNat) 0 = p := by
        rw [Int.toNat_ofNat, List.getD_eq_getElem _ _ hn', hv]
      obtain ⟨idx, led_idx, -, hr⟩ :=
        ptr_for_output_flat hl (o := (n : Int)) (by omega) (by omega) (by omega)
      rw [hget, if_pos hp0] at hr
      exact ⟨n, _, by omega, by simp only [ambitv_ws2801_num_outputs]; omega, hr, rfl⟩
    · rintro ⟨o, s, -, -, hr, rfl⟩
      obtain ⟨a0, -, a1, av, ap⟩ := hres o s hr
      refine ⟨ap, ?_⟩
      rw [av]
      apply hlt
      rw [List.getD_eq_getElem _ _ (by omega)]
      exact List.getElem_mem _

/-- C1 at the top strand `0,1,2`. -/
theorem physical_indices_bijective_witness :
    InjectiveOutputs (driver_of [.leds 0 (some [0, 1, 2])]) ∧
    DenseOutputs (driver_of [.leds 0 (some [0, 1, 2])]) :=
  physical_indices_bijective (fun _ => id) [.leds 0 (some [0, 1, 2])] false
    (driver_of [.leds 0 (some [0, 1, 2])]) rfl (by decide) (by decide) (by decide)

/-- C1 as stated fails at the top strand `0,0`: the logical outputs 0 and 1
both resolve to the physical index 0. -/
theorem physical_indices_not_injective :
    ¬ InjectiveOutputs (driver_of [.leds 0 (some [0, 0])]) := by
  intro hinj
  have := hinj 0 1 ⟨0, 0, 0⟩ ⟨0, 1, 0⟩ (by decide) (by decide) rfl
  omega

/-- C3: in a constructed driver, a logical output inside the stored strands
whose entry is negative resolves to `NULL`, and `map_output_to_point` returns
-1 for it with both coordinates set to -1, whatever the screen size. -/
theorem skip_entry_is_absent (lut_create : ℚ → Lut) (argv : List Opt) (extraneous : Bool)
    (ws : ambitv_ws2801_priv)
    (h : ambitv_ws2801_create lut_create argv extraneous = some ws)
    (output : Int) (h0 : 0 ≤ output) (h1 : output < (flat ws).length)
    (hneg : (flat ws).getD output.toNat 0 < 0) (fl : EdgeEval) (width height x y : Int) :
    ambitv_ws2801_ptr_for_output ws output = .done none ∧
    ambitv_ws2801_map_output_to_point fl ws output width height x y = .done (-1, -1, -1) := by
  obtain ⟨hl, hn, -⟩ := create_inv_weak h
  obtain ⟨idx, led_idx, -, hr⟩ := ptr_for_output_flat hl h0 h1 (by omega)
  rw [if_neg (by omega)] at hr
  refine ⟨hr, ?_⟩
  simp only [ambitv_ws2801_map_output_to_point, hr, Run.bind_done]

/-- C3 at the strand `0,-1,1`: two physical LEDs, logical output 1 is absent,
logical outputs 0 and 2 resolve to the physical indices 0 and 1. -/
theorem skip_entry_is_absent_witness :
    (driver_of [.leds 0 (some [0, -1, 1])]).actual_num_leds = 2 ∧
    (ambitv_ws2801_ptr_for_output (driver_of [.leds 0 (some [0, -1, 1])]) 1 = .done none ∧
      ambitv_ws2801_map_output_to_point (fun _ _ _ _ _ => 0)
        (driver_of [.leds 0 (some [0, -1, 1])]) 1 100 50 0 0 = .done (-1, -1, -1)) ∧
    ambitv_ws2801_ptr_for_output (driver_of [.leds 0 (some [0, -1, 1])]) 0 =
      .done (some { str_idx := 0, led_idx := 0, val := 0 }) ∧
    ambitv_ws2801_ptr_for_output (driver_of [.leds 0 (some [0, -1, 1])]) 2 =
      .done (some { str_idx := 0, led_idx := 2, val := 1 }) :=
  ⟨by decide,
   skip_entry_is_absent (fun _ => id) [.leds 0 (some [0, -1, 1])] false
     (driver_of [.leds 0 (some [0, -1, 1])]) rfl 1 (by decide) (by decide) (by decide)
     (fun _ _ _ _ _ => 0) 100 50 0 0,
   by decide, by decide⟩

/-- C4: on the driver of the top strand `0,1,2` the resolution of the logical
output -1 reads `led_str[0][-1]`, outside the strand array, while a logical
output at or above `num_leds` yields `NULL` without a read. -/
theorem negative_output_reads_out_of_bounds :
    ambitv_ws2801_ptr_for_output (driver_of [.leds 0 (some [0, 1, 2])]) (-1) =
      .undefined .out_of_bounds ∧
    ambitv_ws2801_ptr_for_output (driver_of [.leds 0 (some [0, 1, 2])]) 3 = .done none := by
  decide

/-- C8: with `leds-top` given twice (`0,1`, then `0`) the driver reports three
outputs and three LEDs though the stored strands hold one entry, and resolving
the logical output 1 runs past `led_len[3]`. -/
theorem repeated_strand_miscounts :
    ambitv_ws2801_num_outputs (driver_of [.leds 0 (some [0, 1]), .leds 0 (some [0])]) = 3 ∧
    (flat (driver_of [.leds 0 (some [0, 1]), .leds 0 (some [0])])).length = 1 ∧
    (driver_of [.leds 0 (some [0, 1]), .leds 0 (some [0])]).actual_num_leds = 3 ∧
    count_leds (flat (driver_of [.leds 0 (some [0, 1]), .leds 0 (some [0])])) = 1 ∧
    (driver_of [.leds 0 (some [0, 1]), .leds 0 (some [0])]).grb =
      some [0, 0, 0, 0, 0, 0, 0, 0, 0] ∧
    ambitv_ws2801_ptr_for_output (driver_of [.leds 0 (some [0, 1]), .leds 0 (some [0])]) 1 =
      .undefined .out_of_bounds := by
  decide

/-! ## Stores into byte arrays and gamma correction -/

theorem ptr_for_output_congr {ws ws' : ambitv_ws2801_priv}
    (h1 : ws'.num_leds = ws.num_leds) (h2 : ws'.led_len = ws.led_len)
    (h3 : ws'.led_str = ws.led_str) (o : Int) :
    ambitv_ws2801_ptr_for_output ws' o = ambitv_ws2801_ptr_for_output ws o := by
  unfold ambitv_ws2801_ptr_for_output
  rw [h1, h2, h3]

theorem ptr_for_output_val_nonneg {ws : ambitv_ws2801_priv} {o : Int} {s : Slot}
    (h : ambitv_ws2801_ptr_for_output ws o = .done (some s)) : 0 ≤ s.val := by
  unfold ambitv_ws2801_ptr_for_output at h
  split at h
  · obtain ⟨⟨idx, out⟩, -, h⟩ := Run.bind_eq_done h
    obtain ⟨v, -, h⟩ := Run.bind_eq_done h
    split at h
    · rename_i hv
      simp only [Run.done.injEq, Option.some.injEq] at h
      subst h; exact hv
    · simp at h
  · simp at h

theorem store_done {a : List Int} {i v : Int} (h0 : 0 ≤ i) (h1 : i < a.length) :
    store a i v = .done (a.set i.toNat v) := by
  simp [store, h0, h1]

theorem store_eq_done {a a' : List Int} {i v : Int} (h : store a i v = .done a') :
    0 ≤ i ∧ i < a.length ∧ a' = a.set i.toNat v := by
  unfold store at h
  split at h
  · rename_i hc
    simp only [Run.done.injEq] at h
    exact ⟨hc.1, hc.2, h.symm⟩
  · simp at h

/-- The array after the three stores of `store_bgr`. -/
theorem store_bgr_done {a : List Int} {p : Int} (r g b : Int) (h0 : 0 ≤ p)
    (h1 : 3 * p + 2 < a.length) :
    store_bgr a p r g b = .done
      (((a.set (3 * p).toNat (to_uchar b)).set (3 * p + 1).toNat (to_uchar g)).set
        (3 * p + 2).toNat (to_uchar r)) := by
  unfold store_bgr
  rw [store_done (by omega) (by omega), Run.bind_done,
    store_done (by omega) (by rw [List.length_set]; omega), Run.bind_done,
    store_done (by omega) (by rw [List.length_set, List.length_set]; omega)]

theorem store_bgr_eq_done {a a' : List Int} {p r g b : Int}
    (h : store_bgr a p r g b = .done a') : 0 ≤ 3 * p ∧ 3 * p + 2 < a.length := by
  unfold store_bgr at h
  obtain ⟨a1, h1, h⟩ := Run.bind_eq_done h
  obtain ⟨a2, h2, h⟩ := Run.bind_eq_done h
  obtain ⟨i0, -, e1⟩ := store_eq_done h1
  obtain ⟨-, -, e2⟩ := store_eq_done h2
  obtain ⟨-, i2, -⟩ := store_eq_done h
  subst e1 e2
  simp only [List.length_set] at i2
  exact ⟨i0, i2⟩

/-- What `store_bgr` leaves in the array: the block of LED `p` holds the three
bytes, every other byte is the one it was. -/
theorem store_bgr_spec {a : List Int} {p : Int} (r g b : Int) (h0 : 0 ≤ p)
    (h1 : 3 * p + 2 < a.length) :
    ∃ a', store_bgr a p r g b = .done a' ∧ a'.length = a.length ∧
      block a' p = [to_uchar b, to_uchar g, to_uchar r] ∧
      ∀ j : Nat, (j : Int) ≠ 3 * p → (j : Int) ≠ 3 * p + 1 → (j : Int) ≠ 3 * p + 2 →
        a'.getD j 0 = a.getD j 0 := by
  refine ⟨_, store_bgr_done r g b h0 h1, by simp, ?_, ?_⟩
  · have e1 : (3 * p + 1).toNat = (3 * p).toNat + 1 := by omega
    have e2 : (3 * p + 2).toNat = (3 * p).toNat + 2 := by omega
    have hlt : (3 * p).toNat + 2 < a.length := by omega
    simp only [block, e1, e2]
    have hlt0 : (3 * p).toNat < a.length := by omega
    have hlt1 : (3 * p).toNat + 1 < a.length := by omega
    simp [List.getD_eq_getElem?_getD, List.getElem?_set, hlt, hlt0, hlt1]
  · intro j j0 j1 j2
    simp only [List.getD_eq_getElem?_getD]
    rw [List.getElem?_set_ne (by omega), List.getElem?_set_ne (by omega),
      List.getElem?_set_ne (by omega)]

theorem store_bgr_idem {a a' : List Int} {p r g b : Int}
    (h : store_bgr a p r g b = .done a') : store_bgr a' p r g b = .done a' := by
  obtain ⟨h0, h1⟩ := store_bgr_eq_done h
  have hp : 0 ≤ p := by omega
  rw [store_bgr_done r g b hp h1] at h
  simp only [Run.done.injEq] at h
  have hlen : a'.length = a.length := by rw [← h]; simp
  rw [store_bgr_done r g b hp (by rw [hlen]; exact h1)]
  congr 1
  have n01 : (3 * p).toNat ≠ (3 * p + 1).toNat := by omega
  have n02 : (3 * p).toNat ≠ (3 * p + 2).toNat := by omega
  have n12 : (3 * p + 1).toNat ≠ (3 * p + 2).toNat := by omega
  subst h
  apply List.ext_getElem?
  intro k
  simp only [List.getElem?_set, List.length_set]
  split_ifs <;> rfl

theorem to_uchar_byte (c : Fin 256) : to_uchar (c.val : Int) = (c.val : Int) := by
  have := c.isLt
  unfold to_uchar
  omega

theorem gamma_apply_byte (lut : Option Lut) (c : Fin 256) :
    gamma_apply lut (c.val : Int) = ((corrected lut c).val : Int) := by
  cases lut with
  | none => rfl
  | some t =>
    simp only [gamma_apply, corrected, ambitv_color_map_with_lut, to_uchar_byte]
    congr 3
    apply Fin.ext
    simp [Fin.ofNat, Nat.mod_eq_of_lt c.isLt]

/-! ## Colour pipeline without blending, idempotence: C2, C9 -/

theorem blend_disabled {ws : ambitv_ws2801_priv} (hb : ws.num_bbuf = 0) (ii r g b : Int) :
    blend ws ii r g b = .done (ws, r, g, b) := by
  simp [blend, hb]

/-- The blending block changes `bbuf` only, and running it again on its own
result, whatever `grb` has become, changes nothing. -/
theorem blend_idem {ws ws1 : ambitv_ws2801_priv} {ii r g b r1 g1 b1 : Int}
    (h : blend ws ii r g b = .done (ws1, r1, g1, b1)) :
    ws1 = { ws with bbuf := ws1.bbuf } ∧
    ∀ grb, blend { ws1 with grb := grb } ii r g b =
      .done ({ ws1 with grb := grb }, r1, g1, b1) := by
  unfold blend at h
  split at h
  · rename_i hN
    cases hB : ws.bbuf with
    | none => simp [hB] at h
    | some B =>
      simp only [hB] at h
      split at h
      · rename_i hc
        cases hacc : B[ws.bbuf_idx.toNat]? with
        | none => simp [hacc] at h
        | some acc =>
          simp only [hacc] at h
          obtain ⟨acc', hst, h⟩ := Run.bind_eq_done h
          obtain ⟨⟨sr, sg, sb⟩, hsum, h⟩ := Run.bind_eq_done h
          simp only [Run.done.injEq, Prod.mk.injEq] at h
          obtain ⟨hws, hr, hg, hb'⟩ := h
          subst hws hr hg hb'
          refine ⟨rfl, fun grb => ?_⟩
          have hlt : ws.bbuf_idx.toNat < B.length := by
            obtain ⟨hlt, -⟩ := List.getElem?_eq_some.1 hacc
            exact hlt
          simp only [blend, if_pos hN, if_pos hc]
          rw [List.getElem?_set_self hlt]
          simp only [store_bgr_idem hst, Run.bind_done, List.set_set, hsum]
      · simp at h
  · simp only [Run.done.injEq, Prod.mk.injEq] at h
    obtain ⟨hws, hr, hg, hb'⟩ := h
    subst hws hr hg hb'
    rename_i hN
    refine ⟨rfl, fun grb => ?_⟩
    simp only [blend, if_neg hN]

/-- C2 (amended): with blending disabled, for a logical output that resolves to
a physical index `p` whose block lies in the transmission buffer, and bytes
`r`, `g`, `b`, `set_output_to_rgb` returns 0 and changes the transmission
buffer only: the block of `p` becomes the gamma-corrected `b`, `g`, `r` in this
order, each through its own channel's table, and every other byte stays. -/
theorem unblended_write (ws : ambitv_ws2801_priv) (output : Int) (s : Slot) (r g b : Fin 256)
    (grb : List Int) (hb : ws.num_bbuf = 0)
    (hres : ambitv_ws2801_ptr_for_output ws output = .done (some s))
    (hgrb : ws.grb = some grb) (hin : 3 * s.val + 2 < grb.length) :
    ∃ grb', ambitv_ws2801_set_output_to_rgb ws output r.val g.val b.val =
        .done (0, { ws with grb := some grb' }) ∧
      grb'.length = grb.length ∧
      block grb' s.val = [((corrected ws.gamma_lut.a2 b).val : Int),
        ((corrected ws.gamma_lut.a1 g).val : Int), ((corrected ws.gamma_lut.a0 r).val : Int)] ∧
      ∀ j : Nat, (j : Int) ≠ 3 * s.val → (j : Int) ≠ 3 * s.val + 1 →
        (j : Int) ≠ 3 * s.val + 2 → grb'.getD j 0 = grb.getD j 0 := by
  have hp := ptr_for_output_val_nonneg hres
  obtain ⟨grb', hst, hlen, hblk, hrest⟩ := store_bgr_spec
    ((corrected ws.gamma_lut.a0 r).val : Int) ((corrected ws.gamma_lut.a1 g).val : Int)
    ((corrected ws.gamma_lut.a2 b).val : Int) hp hin
  refine ⟨grb', ?_, hlen, ?_, hrest⟩
  · simp only [ambitv_ws2801_set_output_to_rgb, hres, Run.bind_done, blend_disabled hb,
      gamma_apply_byte, hgrb, hst]
  · rw [hblk, to_uchar_byte, to_uchar_byte, to_uchar_byte]

/-- C2 at the top strand `0,1,2` with identity gamma tables:
`set_output_to_rgb(1, 10, 20, 30)` writes 30, 20, 10 to the block of LED 1. -/
theorem unblended_write_witness :
    ∃ grb', ambitv_ws2801_set_output_to_rgb
        (driver_of [.leds 0 (some [0, 1, 2]), .gamma 0 (some 1), .gamma 1 (some 1),
          .gamma 2 (some 1)]) 1 10 20 30 =
        .done (0, { driver_of [.leds 0 (some [0, 1, 2]), .gamma 0 (some 1), .gamma 1 (some 1),
          .gamma 2 (some 1)] with grb := some grb' }) ∧
      block grb' 1 = [30, 20, 10] := by
  obtain ⟨grb', h1, -, h3, -⟩ := unblended_write
    (driver_of [.leds 0 (some [0, 1, 2]), .gamma 0 (some 1), .gamma 1 (some 1),
      .gamma 2 (some 1)]) 1 ⟨0, 1, 1⟩ 10 20 30 [0, 0, 0, 0, 0, 0, 0, 0, 0]
    (by decide) (by decide) (by decide) (by decide)
  exact ⟨grb', h1, h3.trans (by decide)⟩

/-- C2 as stated fails at the top strand `5`: blending is disabled, the logical
output 0 resolves to the physical index 5, the transmission buffer has three
bytes, and `set_output_to_rgb(0, 10, 20, 30)` stores at `grb[15]`, past it. -/
theorem unblended_write_past_buffer :
    (driver_of [.leds 0 (some [5])]).num_bbuf = 0 ∧
    ambitv_ws2801_ptr_for_output (driver_of [.leds 0 (some [5])]) 0 =
      .done (some { str_idx := 0, led_idx := 0, val := 5 }) ∧
    (driver_of [.leds 0 (some [5])]).grb = some [0, 0, 0] ∧
    ambitv_ws2801_set_output_to_rgb (driver_of [.leds 0 (some [5])]) 0 10 20 30 =
      .undefined .out_of_bounds :=
  ⟨by decide, by decide, by decide, rfl⟩

/-- C9: calling `set_output_to_rgb` a second time with the same arguments and
no commit in between gives the result of the first call: the same return
value and the same state (transmission buffer, windows and cursor included). -/
theorem set_output_idempotent (ws : ambitv_ws2801_priv) (idx r g b : Int) :
    (ambitv_ws2801_set_output_to_rgb ws idx r g b).bind
        (fun x => ambitv_ws2801_set_output_to_rgb x.2 idx r g b) =
      ambitv_ws2801_set_output_to_rgb ws idx r g b := by
  cases hp : ambitv_ws2801_ptr_for_output ws idx with
  | undefined e => simp [ambitv_ws2801_set_output_to_rgb, hp]
  | done outp =>
    cases outp with
    | none => simp [ambitv_ws2801_set_output_to_rgb, hp]
    | some s =>
      cases hbl : blend ws s.val r g b with
      | undefined e => simp [ambitv_ws2801_set_output_to_rgb, hp, hbl]
      | done res =>
        obtain ⟨ws1, r1, g1, b1⟩ := res
        obtain ⟨hws1, hidem⟩ := blend_idem hbl
        cases hG : ws1.grb with
        | none => simp [ambitv_ws2801_set_output_to_rgb, hp, hbl, hG]
        | some G =>
          cases hst : store_bgr G s.val (gamma_apply ws1.gamma_lut.a0 r1)
              (gamma_apply ws1.gamma_lut.a1 g1) (gamma_apply ws1.gamma_lut.a2 b1) with
          | undefined e => simp [ambitv_ws2801_set_output_to_rgb, hp, hbl, hG, hst]
          | done G' =>
            have hfirst : ambitv_ws2801_set_output_to_rgb ws idx r g b =
                .done (0, { ws1 with grb := some G' }) := by
              simp [ambitv_ws2801_set_output_to_rgb, hp, hbl, hG, hst]
            rw [hfirst, Run.bind_done]
            have hp2 : ambitv_ws2801_ptr_for_output { ws1 with grb := some G' } idx =
                .done (some s) := by
              rw [← hp]
              apply ptr_for_output_congr <;> rw [hws1]
            simp only [ambitv_ws2801_set_output_to_rgb, hp2, Run.bind_done, hidem,
              store_bgr_idem hst]

/-! ## Blending: C5 -/

theorem load_block {w : List Int} {p x y z : Int} (h0 : 0 ≤ p) (h1 : 3 * p + 2 < w.length)
    (hb : block w p = [x, y, z]) :
    load w (3 * p) = .done x ∧ load w (3 * p + 1) = .done y ∧ load w (3 * p + 2) = .done z := by
  simp only [block, List.cons.injEq, and_true] at hb
  obtain ⟨hx, hy, hz⟩ := hb
  refine ⟨?_, ?_, ?_⟩
  · rw [load_done (by omega) (by omega), hx]
  · rw [load_done (by omega) (by omega), hy]
  · rw [load_done (by omega) (by omega), hz]

theorem blend_sum_total (B : List (List Int)) (p : Int) (h0 : 0 ≤ p) :
    ∀ (k i : Nat) (acc : Int × Int × Int),
      (∀ j, i ≤ j → j < i + k → ∃ w, B[j]? = some w ∧ 3 * p + 2 < (w.length : Int)) →
      ∃ m, blend_sum B p k i acc = .done m := by
  intro k
  induction k with
  | zero => intro i acc _; exact ⟨acc, rfl⟩
  | succ k ih =>
    intro i acc h
    obtain ⟨r, g, b⟩ := acc
    obtain ⟨w, hw, hlen⟩ := h i (le_refl _) (by omega)
    simp only [blend_sum, hw]
    rw [load_done (by omega) (by omega), load_done (by omega) (by omega),
      load_done (by omega) (by omega)]
    simp only [Run.bind_done]
    exact ih (i + 1) _ (fun j hj1 hj2 => h j (by omega) (by omega))

theorem to_int_add (a b : Int) : to_int (to_int a + b) = to_int (a + b) := by
  unfold to_int; omega

theorem to_int_fits {a : Int} (h0 : -2147483648 ≤ a) (h1 : a < 2147483648) : to_int a = a := by
  unfold to_int; omega

/-- Over windows that all hold `x`, `y`, `z` for LED `p` the loop adds `k` times
these bytes, in 32 bits. -/
theorem blend_sum_filled (B : List (List Int)) (p x y z : Int) (h0 : 0 ≤ p) :
    ∀ (k i : Nat) (r g b : Int),
      (∀ j, i ≤ j → j < i + k →
        ∃ w, B[j]? = some w ∧ 3 * p + 2 < (w.length : Int) ∧ block w p = [x, y, z]) →
      blend_sum B p k i (to_int r, to_int g, to_int b) =
        .done (to_int (r + k * z), to_int (g + k * y), to_int (b + k * x)) := by
  intro k
  induction k with
  | zero => intro i r g b _; simp [blend_sum]
  | succ k ih =>
    intro i r g b h
    obtain ⟨w, hw, hlen, hblk⟩ := h i (le_refl _) (by omega)
    obtain ⟨lx, ly, lz⟩ := load_block h0 hlen hblk
    simp only [blend_sum, hw, lx, ly, lz, Run.bind_done]
    rw [to_int_add, to_int_add, to_int_add,
      ih (i + 1) _ _ _ (fun j hj1 hj2 => h j (by omega) (by omega))]
    simp only [Run.done.injEq, Prod.mk.injEq]
    push_cast
    refine ⟨?_, ?_, ?_⟩ <;> congr 1 <;> ring

/-- The blending block on a ready window: the cursor's window receives the
colour, the sums are taken over the windows so updated. -/
theorem blend_spec {ws : ambitv_ws2801_priv} {p : Int} (hr : WindowReady ws p) (h0 : 0 ≤ p)
    (r g b : Int) :
    ∃ B acc' m, ws.bbuf = some B ∧ 3 * p + 2 < (acc'.length : Int) ∧
      block acc' p = [to_uchar b, to_uchar g, to_uchar r] ∧
      blend_sum (B.set ws.bbuf_idx.toNat acc') p ws.num_bbuf.toNat 0 (0, 0, 0) = .done m ∧
      blend ws p r g b = .done ({ ws with bbuf := some (B.set ws.bbuf_idx.toNat acc') },
        m.1.tdiv ws.num_bbuf, m.2.1.tdiv ws.num_bbuf, m.2.2.tdiv ws.num_bbuf) := by
  obtain ⟨hN, hc0, hc1, ⟨B, hB, hBlen, hBin⟩, -⟩ := hr
  have hclt : ws.bbuf_idx.toNat < B.length := by omega
  have hacc : B[ws.bbuf_idx.toNat]? = some (B[ws.bbuf_idx.toNat]) :=
    List.getElem?_eq_getElem hclt
  have haccin : 3 * p + 2 < ((B[ws.bbuf_idx.toNat]).length : Int) :=
    hBin _ (List.getElem_mem _)
  obtain ⟨acc', hst, hlen, hblk, -⟩ := store_bgr_spec r g b h0 haccin
  have hin' : 3 * p + 2 < (acc'.length : Int) := by rw [hlen]; exact haccin
  obtain ⟨m, hm⟩ := blend_sum_total (B.set ws.bbuf_idx.toNat acc') p h0 ws.num_bbuf.toNat 0
    (0, 0, 0) (by
      intro j _ hj
      have hjlt : j < (B.set ws.bbuf_idx.toNat acc').length := by
        rw [List.length_set]; omega
      refine ⟨_, List.getElem?_eq_getElem hjlt, ?_⟩
      rcases List.mem_or_eq_of_mem_set (List.getElem_mem hjlt) with hmem | heq
      · exact hBin _ hmem
      · rw [heq]; exact hin')
  refine ⟨B, acc', m, hB, hin', hblk, hm, ?_⟩
  have hNne : ws.num_bbuf ≠ 0 := by omega
  simp only [blend, if_pos hNne, hB, if_pos hc0, hacc, hst, Run.bind_done, hm]

/-- A call of `set_output_to_rgb` on a ready window. -/
theorem set_output_blended {ws : ambitv_ws2801_priv} {output : Int} {s : Slot}
    (hr : WindowReady ws s.val)
    (hres : ambitv_ws2801_ptr_for_output ws output = .done (some s)) (r g b : Int) :
    ∃ B acc' m G', ws.bbuf = some B ∧ 3 * s.val + 2 < (acc'.length : Int) ∧
      block acc' s.val = [to_uchar b, to_uchar g, to_uchar r] ∧
      blend_sum (B.set ws.bbuf_idx.toNat acc') s.val ws.num_bbuf.toNat 0 (0, 0, 0) = .done m ∧
      blend ws s.val r g b = .done ({ ws with bbuf := some (B.set ws.bbuf_idx.toNat acc') },
        m.1.tdiv ws.num_bbuf, m.2.1.tdiv ws.num_bbuf, m.2.2.tdiv ws.num_bbuf) ∧
      3 * s.val + 2 < (G'.length : Int) ∧
      block G' s.val = [to_uchar (gamma_apply ws.gamma_lut.a2 (m.2.2.tdiv ws.num_bbuf)),
        to_uchar (gamma_apply ws.gamma_lut.a1 (m.2.1.tdiv ws.num_bbuf)),
        to_uchar (gamma_apply ws.gamma_lut.a0 (m.1.tdiv ws.num_bbuf))] ∧
      ambitv_ws2801_set_output_to_rgb ws output r g b =
        .done (0, { ws with bbuf := some (B.set ws.bbuf_idx.toNat acc'), grb := some G' }) := by
  have h0 := ptr_for_output_val_nonneg hres
  obtain ⟨B, acc', m, hB, hin', hblk, hm, hbl⟩ := blend_spec hr h0 r g b
  obtain ⟨-, -, -, -, ⟨G, hG, hGin⟩⟩ := hr
  obtain ⟨G', hst, hlen, hGblk, -⟩ := store_bgr_spec
    (gamma_apply ws.gamma_lut.a0 (m.1.tdiv ws.num_bbuf))
    (gamma_apply ws.gamma_lut.a1 (m.2.1.tdiv ws.num_bbuf))
    (gamma_apply ws.gamma_lut.a2 (m.2.2.tdiv ws.num_bbuf)) h0 hGin
  refine ⟨B, acc', m, G', hB, hin', hblk, hm, hbl, by rw [hlen]; exact hGin, hGblk, ?_⟩
  simp only [ambitv_ws2801_set_output_to_rgb, hres, Run.bind_done, hbl, hG, hst]

/-- One frame on a ready window: the window stays ready, the cursor moves on
by one, and the window the cursor was on holds the colour. -/
theorem frame_round_spec {ws : ambitv_ws2801_priv} {output : Int} {s : Slot}
    (hr : WindowReady ws s.val)
    (hres : ambitv_ws2801_ptr_for_output ws output = .done (some s)) (r g b : Int)
    (P : Nat → Prop) {B : List (List Int)} (hB : ws.bbuf = some B)
    (hF : Filled B s.val (to_uchar b) (to_uchar g) (to_uchar r) P) (w : WriteResult) :
    ∃ ws' B', frame_round output r g b ws w = .done ws' ∧ WindowReady ws' s.val ∧
      ambitv_ws2801_ptr_for_output ws' output = .done (some s) ∧
      ws'.num_bbuf = ws.num_bbuf ∧ ws'.gamma_lut = ws.gamma_lut ∧
      ws'.bbuf_idx = (ws.bbuf_idx + 1) % ws.num_bbuf ∧ ws'.bbuf = some B' ∧
      Filled B' s.val (to_uchar b) (to_uchar g) (to_uchar r)
        (fun j => P j ∨ (j : Int) = ws.bbuf_idx) := by
  obtain ⟨B0, acc', m, G', hB0, hin', hblk, -, -, hGin, -, hset⟩ :=
    set_output_blended hr hres r g b
  obtain ⟨hN, hc0, hc1, ⟨B1, hB1, hBlen, hBin⟩, -⟩ := hr
  have e0 : B = B0 := by rw [hB] at hB0; exact Option.some.inj hB0
  have e1 : B = B1 := by rw [hB] at hB1; exact Option.some.inj hB1
  subst e0 e1
  have hNne : ws.num_bbuf ≠ 0 := by omega
  have hmod : (ws.bbuf_idx + 1).tmod ws.num_bbuf = (ws.bbuf_idx + 1) % ws.num_bbuf :=
    Int.tmod_eq_emod (by omega) (by omega)
  have hround : frame_round output r g b ws w = .done (ambitv_ws2801_commit_outputs
      { ws with bbuf := some (B.set ws.bbuf_idx.toNat acc'), grb := some G' } w).2 := by
    simp only [frame_round, hset, Run.bind_done]
  refine ⟨_, B.set ws.bbuf_idx.toNat acc', hround, ?_, ?_, ?_, ?_, ?_, ?_, ?_⟩
  · refine ⟨hN, ?_, ?_, ⟨_, rfl, ?_, ?_⟩, ⟨G', rfl, hGin⟩⟩
    · simp only [ambitv_ws2801_commit_outputs, if_pos hNne, hmod]
      exact Int.emod_nonneg _ hNne
    · simp only [ambitv_ws2801_commit_outputs, if_pos hNne, hmod]
      exact Int.emod_lt_of_pos _ (by omega)
    · simp only [ambitv_ws2801_commit_outputs, List.length_set]; exact hBlen
    · intro w' hw'
      rcases List.mem_or_eq_of_mem_set hw' with hmem | heq
      · exact hBin _ hmem
      · rw [heq]; exact hin'
  · rw [← hres]; apply ptr_for_output_congr <;> rfl
  · rfl
  · rfl
  · simp only [ambitv_ws2801_commit_outputs, if_pos hNne, hmod]
  · rfl
  · intro j hj w' hw'
    by_cases hjc : j = ws.bbuf_idx.toNat
    · subst hjc
      rw [List.getElem?_set_self (by omega)] at hw'
      rw [← Option.some.inj hw']; exact hblk
    · rw [List.getElem?_set_ne (Ne.symm hjc)] at hw'
      rcases hj with hP | hc
      · exact hF j hP w' hw'
      · exact absurd (by omega) hjc

/-- Consecutive frames on a ready window: the windows the cursor passed hold
the colour. -/
theorem frame_rounds_spec (output : Int) (s : Slot) (r g b : Int) :
    ∀ (wl : List WriteResult) (ws : ambitv_ws2801_priv) (P : Nat → Prop) (B : List (List Int)),
      WindowReady ws s.val →
      ambitv_ws2801_ptr_for_output ws output = .done (some s) →
      ws.bbuf = some B → Filled B s.val (to_uchar b) (to_uchar g) (to_uchar r) P →
      ∃ ws' B', frame_rounds output r g b wl ws = .done ws' ∧ WindowReady ws' s.val ∧
        ambitv_ws2801_ptr_for_output ws' output = .done (some s) ∧
        ws'.num_bbuf = ws.num_bbuf ∧ ws'.gamma_lut = ws.gamma_lut ∧
        ws'.bbuf_idx = (ws.bbuf_idx + wl.length) % ws.num_bbuf ∧ ws'.bbuf = some B' ∧
        Filled B' s.val (to_uchar b) (to_uchar g) (to_uchar r)
          (fun j => P j ∨ ∃ i : Nat, i < wl.length ∧
            (j : Int) = (ws.bbuf_idx + i) % ws.num_bbuf) := by
  intro wl
  induction wl with
  | nil =>
    intro ws P B hr hres hB hF
    refine ⟨ws, B, rfl, hr, hres, rfl, rfl, ?_, hB, ?_⟩
    · simp only [List.length_nil, Nat.cast_zero, add_zero]
      exact (Int.emod_eq_of_lt hr.2.1 hr.2.2.1).symm
    · intro j hj
      rcases hj with hP | ⟨i, hi, -⟩
      · exact hF j hP
      · simp at hi
  | cons w rest ih =>
    intro ws P B hr hres hB hF
    obtain ⟨ws1, B1, hround, hr1, hres1, hN1, hg1, hc1, hB1, hF1⟩ :=
      frame_round_spec hr hres r g b P hB hF w
    obtain ⟨ws2, B2, hrounds, hr2, hres2, hN2, hg2, hc2, hB2, hF2⟩ :=
      ih ws1 _ B1 hr1 hres1 hB1 hF1
    refine ⟨ws2, B2, ?_, hr2, hres2, hN2.trans hN1, hg2.trans hg1, ?_, hB2, ?_⟩
    · simp only [frame_rounds, hround, Run.bind_done, hrounds]
    · rw [hc2, hc1, hN1, Int.emod_add_emod]
      congr 1
      simp only [List.length_cons, Nat.cast_add, Nat.cast_one]; ring
    · intro j hj
      apply hF2
      rcases hj with hP | ⟨i, hi, hji⟩
      · exact Or.inl (Or.inl hP)
      · cases i with
        | zero =>
          refine Or.inl (Or.inr ?_)
          rw [hji]
          simp only [Nat.cast_zero, add_zero]
          exact Int.emod_eq_of_lt hr.2.1 hr.2.2.1
        | succ i =>
          refine Or.inr ⟨i, by simpa using hi, ?_⟩
          rw [hji, hc1, hN1, Int.emod_add_emod]
          congr 1
          push_cast; ring

theorem frame_rounds_append (idx r g b : Int) : ∀ (l1 l2 : List WriteResult)
    (ws : ambitv_ws2801_priv),
    frame_rounds idx r g b (l1 ++ l2) ws =
      (frame_rounds idx r g b l1 ws).bind (frame_rounds idx r g b l2) := by
  intro l1
  induction l1 with
  | nil => intro l2 ws; rfl
  | cons w rest ih =>
    intro l2 ws
    simp only [List.cons_append, frame_rounds]
    cases frame_round idx r g b ws w with
    | done ws1 => exact ih l2 ws1
    | undefined e => rfl

/-- After `N - 1` frames with one colour on a ready window of `N` buffers, the
blending block of the `N`-th call divides the 32-bit sums of `N` equal bytes,
and the `N`-th frame writes the gamma-corrected quotients. -/
theorem blend_after_rounds (ws : ambitv_ws2801_priv) (output : Int) (s : Slot)
    (r g b : Fin 256) (hr : WindowReady ws s.val)
    (hres : ambitv_ws2801_ptr_for_output ws output = .done (some s))
    (wl : List WriteResult) (hwl : (wl.length : Int) + 1 = ws.num_bbuf) :
    ∃ ws1, frame_rounds output r.val g.val b.val wl ws = .done ws1 ∧
      (∃ ws2, blend ws1 s.val r.val g.val b.val = .done (ws2,
        (to_int (ws.num_bbuf * r.val)).tdiv ws.num_bbuf,
        (to_int (ws.num_bbuf * g.val)).tdiv ws.num_bbuf,
        (to_int (ws.num_bbuf * b.val)).tdiv ws.num_bbuf)) ∧
      ∀ w : WriteResult, ∃ ws3 G,
        frame_rounds output r.val g.val b.val (wl ++ [w]) ws = .done ws3 ∧
        ws3.grb = some G ∧
        block G s.val =
          [to_uchar (gamma_apply ws.gamma_lut.a2
            ((to_int (ws.num_bbuf * b.val)).tdiv ws.num_bbuf)),
           to_uchar (gamma_apply ws.gamma_lut.a1
            ((to_int (ws.num_bbuf * g.val)).tdiv ws.num_bbuf)),
           to_uchar (gamma_apply ws.gamma_lut.a0
            ((to_int (ws.num_bbuf * r.val)).tdiv ws.num_bbuf))] := by
  have h0 := ptr_for_output_val_nonneg hres
  obtain ⟨B, hB, -, -⟩ := hr.2.2.2.1
  obtain ⟨ws1, B1, hrounds, hr1, hres1, hN1, hg1, hc1, hB1, hF1⟩ :=
    frame_rounds_spec output s r.val g.val b.val wl ws (fun _ => False) B
      hr hres hB (fun j hj => absurd hj (by simp))
  obtain ⟨B', acc', m, G', hB', hin', hblk, hm, hbl, hGin, hGblk, hset⟩ :=
    set_output_blended hr1 hres1 r.val g.val b.val
  have e : B1 = B' := by rw [hB1] at hB'; exact Option.some.inj hB'
  subst e
  obtain ⟨hN, hc0, hclt, ⟨B2, hB2, hBlen, hBin⟩, -⟩ := hr1
  have e : B1 = B2 := by rw [hB1] at hB2; exact Option.some.inj hB2
  subst e
  have hcur0 := hr.2.1
  have hcur1 := hr.2.2.1
  have hNpos : 0 < ws.num_bbuf := by rw [← hN1]; omega
  -- every window holds the colour once the cursor's window is written
  have hall : ∀ j, 0 ≤ j → j < 0 + ws1.num_bbuf.toNat →
      ∃ w, (B1.set ws1.bbuf_idx.toNat acc')[j]? = some w ∧ 3 * s.val + 2 < (w.length : Int) ∧
        block w s.val = [to_uchar b.val, to_uchar g.val, to_uchar r.val] := by
    intro j _ hj
    have hjlt : j < B1.length := by omega
    by_cases hjc : j = ws1.bbuf_idx.toNat
    · subst hjc
      exact ⟨acc', List.getElem?_set_self hjlt, hin', hblk⟩
    · refine ⟨B1[j], ?_, hBin _ (List.getElem_mem _), ?_⟩
      · rw [List.getElem?_set_ne (Ne.symm hjc)]
        exact List.getElem?_eq_getElem hjlt
      · refine hF1 j (Or.inr ?_) _ (List.getElem?_eq_getElem hjlt)
        have ht0 : 0 ≤ ((j : Int) - ws.bbuf_idx) % ws.num_bbuf :=
          Int.emod_nonneg _ (by omega)
        have ht1 : ((j : Int) - ws.bbuf_idx) % ws.num_bbuf < ws.num_bbuf :=
          Int.emod_lt_of_pos _ hNpos
        have hback : (ws.bbuf_idx + ((j : Int) - ws.bbuf_idx) % ws.num_bbuf) % ws.num_bbuf = j := by
          rw [Int.add_emod_emod]
          have : ws.bbuf_idx + ((j : Int) - ws.bbuf_idx) = j := by ring
          rw [this]
          exact Int.emod_eq_of_lt (by omega) (by omega)
        refine ⟨(((j : Int) - ws.bbuf_idx) % ws.num_bbuf).toNat, ?_, ?_⟩
        · by_contra hge
          have hlast : ((j : Int) - ws.bbuf_idx) % ws.num_bbuf = (wl.length : Int) := by omega
          rw [hlast] at hback
          rw [hback] at hc1
          omega
        · rw [Int.toNat_of_nonneg ht0, hback]
  have hz : to_int 0 = 0 := by decide
  have hsum := blend_sum_filled (B1.set ws1.bbuf_idx.toNat acc') s.val (to_uchar b.val)
    (to_uchar g.val) (to_uchar r.val) h0 ws1.num_bbuf.toNat 0 0 0 0 hall
  rw [hz, hm] at hsum
  simp only [Run.done.injEq] at hsum
  have hn : ((ws.num_bbuf.toNat : Nat) : Int) = ws.num_bbuf :=
    Int.toNat_of_nonneg (by omega)
  rw [hsum] at hbl hGblk
  simp only [zero_add, to_uchar_byte, hN1, hg1, hn] at hbl hGblk
  refine ⟨ws1, hrounds, ⟨_, hbl⟩, fun w => ?_⟩
  have hlast : frame_rounds output r.val g.val b.val (wl ++ [w]) ws =
      .done (ambitv_ws2801_commit_outputs
        { ws1 with bbuf := some (B1.set ws1.bbuf_idx.toNat acc'), grb := some G' } w).2 := by
    rw [frame_rounds_append, hrounds, Run.bind_done]
    simp only [frame_rounds, frame_round, hset, Run.bind_done]
  exact ⟨_, G', hlast, rfl, hGblk⟩

/-- C5 (amended): on a window of `N` buffers with `2 ≤ N` and `255 * N < 2^31`,
with any contents and any cursor, for a resolved output whose block lies in the
windows and in the transmission buffer, and bytes `r`, `g`, `b`: after `N - 1`
frames of `set_output_to_rgb(output, r, g, b)` and commit, the blending block
of the `N`-th call yields exactly `(r, g, b)`, and after the `N`-th frame the
block of the LED holds the gamma-corrected `b`, `g`, `r` (the bytes `b`, `g`,
`r` themselves when no channel has a table). -/
theorem blend_converges (ws : ambitv_ws2801_priv) (output : Int) (s : Slot) (r g b : Fin 256)
    (hr : WindowReady ws s.val) (hfit : 255 * ws.num_bbuf < 2147483648)
    (hres : ambitv_ws2801_ptr_for_output ws output = .done (some s))
    (wl : List WriteResult) (hwl : (wl.length : Int) + 1 = ws.num_bbuf) :
    ∃ ws1, frame_rounds output r.val g.val b.val wl ws = .done ws1 ∧
      (∃ ws2, blend ws1 s.val r.val g.val b.val = .done (ws2, r.val, g.val, b.val)) ∧
      ∀ w : WriteResult, ∃ ws3 G,
        frame_rounds output r.val g.val b.val (wl ++ [w]) ws = .done ws3 ∧
        ws3.grb = some G ∧
        block G s.val = [((corrected ws.gamma_lut.a2 b).val : Int),
          ((corrected ws.gamma_lut.a1 g).val : Int), ((corrected ws.gamma_lut.a0 r).val : Int)] := by
  obtain ⟨ws1, hrounds, ⟨ws2, hbl⟩, hlast⟩ := blend_after_rounds ws output s r g b hr hres wl hwl
  have hN : 2 ≤ ws.num_bbuf := hr.1
  have hNne : ws.num_bbuf ≠ 0 := by omega
  have hmean : ∀ c : Fin 256, (to_int (ws.num_bbuf * c.val)).tdiv ws.num_bbuf = c.val := by
    intro c
    have hc := c.isLt
    have h1 : 0 ≤ ws.num_bbuf * (c.val : Int) := by positivity
    have h2 : ws.num_bbuf * (c.val : Int) ≤ ws.num_bbuf * 255 :=
      mul_le_mul_of_nonneg_left (by omega) (by omega)
    rw [to_int_fits (by omega) (by omega)]
    exact Int.mul_tdiv_cancel_left _ hNne
  simp only [hmean, gamma_apply_byte, to_uchar_byte] at hbl hlast
  exact ⟨ws1, hrounds, ⟨ws2, hbl⟩, hlast⟩

/-- C5 at a window of two buffers holding other colours, cursor on the second
buffer: after two frames with `(10, 20, 30)` on output 1 the block of LED 1 is
`30, 20, 10`. -/
theorem blend_converges_witness :
    ∃ ws1, frame_rounds 1 10 20 30 [⟨6, 0⟩] blending_driver = .done ws1 ∧
      (∃ ws2, blend ws1 1 10 20 30 = .done (ws2, 10, 20, 30)) ∧
      ∀ w : WriteResult, ∃ ws3 G,
        frame_rounds 1 10 20 30 ([⟨6, 0⟩] ++ [w]) blending_driver = .done ws3 ∧
        ws3.grb = some G ∧ block G 1 = [30, 20, 10] :=
  blend_converges blending_driver 1 ⟨0, 1, 1⟩ 10 20 30
    ⟨by decide, by decide, by decide,
      ⟨[[9, 9, 9, 7, 7, 7], [1, 2, 3, 4, 5, 6]], rfl, by decide, by decide⟩,
      ⟨[0, 0, 0, 0, 0, 0], rfl, by decide⟩⟩
    (by decide) (by decide) [⟨6, 0⟩] (by decide)

/-- C5 as stated fails in two ways.  At the top strand `5` with two windows
the first frame stores at byte 15 of a window of three bytes.  At the top
strand `0` with 8421505 windows and the colour `(255, 255, 255)` the sum
`255 * 8421505` of the last call does not fit an `int`, and the blending
block yields `(-254, -254, -254)`. -/
theorem blend_diverges :
    frame_rounds 0 10 20 30 [⟨3, 0⟩]
        (driver_of [.leds 0 (some [5]), .blended_frames (some 2)]) =
      .undefined .out_of_bounds ∧
    ∃ ws1, frame_rounds 0 255 255 255 (List.replicate 8421504 ⟨3, 0⟩) wide_driver =
        .done ws1 ∧
      ∃ ws2, blend ws1 0 255 255 255 = .done (ws2, -254, -254, -254) := by
  refine ⟨rfl, ?_⟩
  have hN : wide_driver.num_bbuf = 8421505 := by decide
  have hr : WindowReady wide_driver 0 := by
    refine ⟨by decide, by decide, by decide,
      ⟨List.replicate 8421505 [0, 0, 0], rfl, ?_, ?_⟩, ⟨[0, 0, 0], rfl, by decide⟩⟩
    · rw [List.length_replicate, hN]; rfl
    · intro w hw
      rw [List.eq_of_mem_replicate hw]; decide
  obtain ⟨ws1, hrounds, ⟨ws2, hbl⟩, -⟩ :=
    blend_after_rounds wide_driver 0 ⟨0, 0, 0⟩ 255 255 255 hr (by decide)
      (List.replicate 8421504 ⟨3, 0⟩) (by rw [List.length_replicate, hN]; rfl)
  have hmean : (to_int (wide_driver.num_bbuf * ((255 : Fin 256).val : Int))).tdiv
      wide_driver.num_bbuf = -254 := by
    rw [hN]; decide
  rw [hmean] at hbl
  exact ⟨ws1, hrounds, ws2, hbl⟩

/-! ## Commit and clear: C6, C7; single-LED strands: C10 -/

/-- The value `ambitv_ws2801_commit_outputs` returns on an open device. -/
theorem commit_outputs_ret (ws : ambitv_ws2801_priv) (w : WriteResult) (hfd : ws.fd ≥ 0) :
    (w.ret = ws.grblen → (ambitv_ws2801_commit_outputs ws w).1 = 0) ∧
    (w.ret ≠ ws.grblen → 0 < w.ret → (ambitv_ws2801_commit_outputs ws w).1 = -w.ret) ∧
    (w.ret ≠ ws.grblen → w.ret ≤ 0 → (ambitv_ws2801_commit_outputs ws w).1 = -w.errno) := by
  refine ⟨fun h => ?_, fun h1 h2 => ?_, fun h1 h2 => ?_⟩
  · simp [ambitv_ws2801_commit_outputs, hfd, h]
  · simp [ambitv_ws2801_commit_outputs, hfd, h1, not_le.2 h2]
  · simp [ambitv_ws2801_commit_outputs, hfd, h1, h2]

/-- C6: on an open device with a buffer of three bytes, a write that transfers
no byte and leaves `errno` at 0 makes the commit return 0, the value of a
complete transfer. -/
theorem commit_zero_write_returns_success :
    ({ driver_of [.leds 0 (some [0])] with fd := 3 } : ambitv_ws2801_priv).grblen = 3 ∧
    (ambitv_ws2801_commit_outputs { driver_of [.leds 0 (some [0])] with fd := 3 } ⟨0, 0⟩).1 = 0 ∧
    (ambitv_ws2801_commit_outputs { driver_of [.leds 0 (some [0])] with fd := 3 } ⟨3, 0⟩).1 = 0 := by
  decide

theorem clear_round_spec {ws : ambitv_ws2801_priv} {G : List Int} (w : WriteResult)
    (hfd : ws.fd ≥ 0) (hG : ws.grb = some G) (hlen : (G.length : Int) = ws.grblen)
    (hc : 0 ≤ ws.bbuf_idx) (hN : 0 ≤ ws.num_bbuf) :
    ∃ ws', clear_round ws w = .done ws' ∧ ws'.fd = ws.fd ∧
      ws'.grb = some (List.replicate G.length 0) ∧ ws'.grblen = ws.grblen ∧
      ws'.num_bbuf = ws.num_bbuf ∧
      ws'.wire = ws.wire ++ [List.replicate G.length 0] ∧
      0 ≤ ws'.bbuf_idx ∧
      ws'.bbuf_idx =
        if ws.num_bbuf ≠ 0 then (ws.bbuf_idx + 1) % ws.num_bbuf else ws.bbuf_idx := by
  have hn : ws.grblen.toNat = G.length := by omega
  have hz : memset_zero G ws.grblen = .done (List.replicate G.length 0) := by
    simp [memset_zero, ← hlen]
  have hmod : (ws.bbuf_idx + 1).tmod ws.num_bbuf = (ws.bbuf_idx + 1) % ws.num_bbuf :=
    Int.tmod_eq_emod (by omega) hN
  have hrun : clear_round ws w = .done (ambitv_ws2801_commit_outputs
      { ws with grb := some (List.replicate G.length 0) } w).2 := by
    simp only [clear_round, hG, hz, Run.bind_done]
  refine ⟨_, hrun, rfl, rfl, rfl, rfl, ?_, ?_, ?_⟩
  · simp [ambitv_ws2801_commit_outputs, hfd, frame, hn]
  · simp only [ambitv_ws2801_commit_outputs, hmod]
    split
    · exact Int.emod_nonneg _ (by assumption)
    · exact hc
  · simp only [ambitv_ws2801_commit_outputs, hmod]

/-- C7 (amended): on an open device (`fd ≥ 0`) with the transmission buffer
allocated, whatever the outcomes of the writes, after `clear_leds` every byte
of the transmission buffer is 0, exactly three frames, all zero, have been
handed to `write`, and with blending enabled the cursor is at
`(cursor + 3) mod num_bbuf`. -/
theorem clear_leds_open (ws : ambitv_ws2801_priv) (w : Nat → WriteResult) (G : List Int)
    (hfd : ws.fd ≥ 0) (hG : ws.grb = some G) (hlen : (G.length : Int) = ws.grblen)
    (hc : 0 ≤ ws.bbuf_idx) (hN : 0 ≤ ws.num_bbuf) :
    ∃ ws', ambitv_ws2801_clear_leds ws w = .done ws' ∧
      ws'.grb = some (List.replicate G.length 0) ∧
      ws'.wire = ws.wire ++ [List.replicate G.length 0, List.replicate G.length 0,
        List.replicate G.length 0] ∧
      ws'.bbuf_idx =
        if ws.num_bbuf ≠ 0 then (ws.bbuf_idx + 3) % ws.num_bbuf else ws.bbuf_idx := by
  obtain ⟨ws1, h1, f1, g1, l1, n1, w1, c1, i1⟩ := clear_round_spec (w 0) hfd hG hlen hc hN
  obtain ⟨ws2, h2, f2, g2, l2, n2, w2, c2, i2⟩ := clear_round_spec (w 1) (f1 ▸ hfd) g1
    (by rw [l1]; simpa using hlen) c1 (n1 ▸ hN)
  obtain ⟨ws3, h3, f3, g3, l3, n3, w3, c3, i3⟩ := clear_round_spec (w 2) (f2 ▸ f1 ▸ hfd) g2
    (by rw [l2, l1]; simpa using hlen) c2 (n2 ▸ n1 ▸ hN)
  refine ⟨ws3, ?_, ?_, ?_, ?_⟩
  · simp [ambitv_ws2801_clear_leds, hG, hfd, h1, h2, h3]
  · simpa using g3
  · rw [w3, w2, w1]; simp
  · rw [i3, n2, i2, n1, i1]
    by_cases h0 : ws.num_bbuf = 0
    · simp [h0]
    · simp only [ne_eq, h0, not_false_eq_true, if_true, Int.emod_add_emod]
      congr 1; ring

/-- C7 at an open device with two windows, cursor 0, and a lit LED. -/
theorem clear_leds_open_witness :
    ∃ ws', ambitv_ws2801_clear_leds
        { driver_of [.leds 0 (some [0]), .blended_frames (some 2)] with
          fd := 3, grb := some [30, 20, 10] } (fun _ => ⟨-1, 5⟩) = .done ws' ∧
      ws'.grb = some [0, 0, 0] ∧
      ws'.wire = [[0, 0, 0], [0, 0, 0], [0, 0, 0]] ∧
      ws'.bbuf_idx = 1 :=
  clear_leds_open
    { driver_of [.leds 0 (some [0]), .blended_frames (some 2)] with
      fd := 3, grb := some [30, 20, 10] } (fun _ => ⟨-1, 5⟩) [30, 20, 10]
    (by decide) rfl (by decide) (by decide) (by decide)

/-- C7 as stated fails on a closed device (`fd < 0`): after a colour is set on
a driver that was never started, `clear_leds` leaves the lit bytes in the
buffer, hands nothing to `write` and leaves the cursor where it was. -/
theorem clear_leds_closed_keeps_buffer :
    (ambitv_ws2801_set_output_to_rgb
        (driver_of [.leds 0 (some [0]), .blended_frames (some 2), .gamma 0 (some (-1)),
          .gamma 1 (some (-1)), .gamma 2 (some (-1))]) 0 20 40 60).bind
      (fun x => (ambitv_ws2801_clear_leds x.2 (fun _ => ⟨3, 0⟩)).bind
        (fun ws => .done (ws.fd, ws.grb, ws.wire, ws.num_bbuf, ws.bbuf_idx))) =
      .done (-1, some [30, 20, 10], [], 2, 0) := by
  decide

/-- C10: for a top strand and for a left strand with the single entry 0 and
inset 0, `map_output_to_point` divides by `llen = led_len - 1 = 0`, whatever
the `float` arithmetic gives for non-zero divisors; the offset it converts to
`int` is not a number. -/
theorem single_led_strand_divides_by_zero :
    ∀ fl : EdgeEval,
      ambitv_ws2801_map_output_to_point fl (driver_of [.leds 0 (some [0])]) 0 100 50 0 0 =
        .undefined .float_div_zero ∧
      ambitv_ws2801_map_output_to_point fl (driver_of [.leds 2 (some [0])]) 0 100 50 0 0 =
        .undefined .float_div_zero := by
  intro fl
  exact ⟨rfl, rfl⟩

end Ws2801
